import Mathlib

/-!
Shallow embedding of `src/collectors/monitoring_collector.go` of the
stackdriver_exporter repository, together with theorems settling the
specification's claims about descriptor deduplication, histogram bucket
reconstruction, label assembly, metric-kind mapping, latest-point
selection, error collection and the descriptor cache.

Modelling conventions:
* float64 values appearing as histogram bucket boundaries are modelled as
  exact rationals plus a distinguished positive-infinity value (`GoFloat`);
  `math.Inf(1)` is `GoFloat.posInf`.  NaN does not arise on the modelled
  paths (the API sends finite, increasing bounds).  float64 arithmetic
  (`offset + i*width`, `scale * growthFactor^i`, `float64(int64)`) is
  modelled as exact rational arithmetic.
* RFC3339 timestamp strings are modelled by `TimeStr`: either a string
  that parses to a number of nanoseconds since the Unix epoch, or a
  malformed string; `time.Parse` is the evident pattern match and
  `time.Unix(0, 0)` is `0`.  Go duration strings (the metadata ingest
  delay) are modelled the same way by `IngestDelayStr`.
* uint64 arithmetic is Nat arithmetic modulo `2 ^ 64`; `uint64(x)` of an
  int64 `x` is `x % 2 ^ 64`.
* Go maps are modelled as insertion-ordered association lists with
  replace-on-duplicate-key semantics.  Go map iteration order is
  unspecified, so an input `map[string]string` (metric / resource /
  system labels) is modelled as an association list fixing one arbitrary
  iteration order.
* A nil-pointer dereference (a Go runtime panic) is modelled explicitly:
  per-series processing returns `SeriesStep.crash` and a whole
  goroutine's outcome becomes `UnitOut.crashed`.
* Goroutine fan-out is modelled by one fixed schedule: concurrent units
  run in the order of their (deduplicated) descriptor list, and the
  buffered error channel is the list of errors in that order.  Reading
  once from the closed channel is taking the head of that list.
-/

namespace StackdriverCollector

/-- A float64 bucket boundary: a finite value (modelled as a rational) or
`math.Inf(1)`. -/
inductive GoFloat where
  | finite (x : ℚ)
  | posInf
deriving DecidableEq, Repr

/-- Linear bucket options (`monitoring.Linear`): `NumFiniteBuckets`,
`Width`, `Offset`.  The wire field `NumFiniteBuckets` is an int64 the API
constrains to be non-negative; it is modelled as a natural number. -/
structure LinearB where
  numFiniteBuckets : ℕ
  width : ℚ
  offset : ℚ
deriving DecidableEq, Repr

/-- Exponential bucket options (`monitoring.Exponential`):
`NumFiniteBuckets`, `GrowthFactor`, `Scale`. -/
structure ExponentialB where
  numFiniteBuckets : ℕ
  growthFactor : ℚ
  scale : ℚ
deriving DecidableEq, Repr

/-- Explicit bucket options (`monitoring.Explicit`): the declared bounds. -/
structure ExplicitB where
  bounds : List ℚ
deriving DecidableEq, Repr

/-- `monitoring.BucketOptions`: three optional variants, examined in the
order explicit, linear, exponential by `generateHistogramBuckets`.
The Go field `Distribution.BucketOptions` is a pointer; the modelled
distributions carry the struct directly (the API always populates it for
distribution values), with "no recognized variant" meaning all three
variant fields are nil. -/
structure BucketOptions where
  explicitBuckets : Option ExplicitB
  linearBuckets : Option LinearB
  exponentialBuckets : Option ExponentialB
deriving DecidableEq, Repr

/-- `monitoring.Distribution`: bucket options plus the flat int64 bucket
count array. -/
structure Distribution where
  bucketOptions : BucketOptions
  bucketCounts : List ℤ
deriving DecidableEq, Repr

/-- uint64 wraparound modulus. -/
def U64MOD : ℕ := 2 ^ 64

/-- The Go conversion `uint64(z)` of an int64 value `z`. -/
def u64 (z : ℤ) : ℕ := (z % (2 ^ 64 : ℤ)).toNat

/-- The Go `map[float64]uint64` is modelled as an insertion-ordered
association list. -/
abbrev GoMap := List (GoFloat × ℕ)

/-- Insertion into a Go map: replace the value when the key is present,
otherwise append the new binding. -/
def mapInsert : GoMap → GoFloat → ℕ → GoMap
  | [], k, v => [(k, v)]
  | p :: t, k, v => if p.1 == k then (k, v) :: t else p :: mapInsert t k v

/-- The cumulative-count walk of `generateHistogramBuckets` (lines
594-603): iterate over `bucketKeys` with index `i` and running total
`last`; when a source count exists at `i`, store `uint64(count) + last`
and advance `last`, otherwise store `last` unchanged. -/
def bucketWalk (counts : List ℤ) : ℕ → ℕ → GoMap → List GoFloat → GoMap
  | _, _, m, [] => m
  | i, last, m, b :: rest =>
    if h : i < counts.length then
      let v := (u64 (counts.get ⟨i, h⟩) + last) % U64MOD
      bucketWalk counts (i + 1) v (mapInsert m b v) rest
    else
      bucketWalk counts (i + 1) last (mapInsert m b last) rest

/-- Bucket boundary construction before the final infinity overwrite
(lines 559-584): the Go code allocates a zero-filled slice one longer
than the finite boundaries and fills all but the last slot, so each
variant ends in a zero placeholder. -/
def mkBucketKeysRaw (opts : BucketOptions) : Option (List GoFloat) :=
  match opts.explicitBuckets with
  | some eb => some (eb.bounds.map GoFloat.finite ++ [GoFloat.finite 0])
  | none =>
    match opts.linearBuckets with
    | some lb =>
        some (((List.range (lb.numFiniteBuckets + 1)).map
          (fun i : ℕ => GoFloat.finite (lb.offset + (i : ℚ) * lb.width))) ++ [GoFloat.finite 0])
    | none =>
      match opts.exponentialBuckets with
      | some xb =>
          some (((List.range (xb.numFiniteBuckets + 1)).map
            (fun i : ℕ => GoFloat.finite (xb.scale * xb.growthFactor ^ i))) ++ [GoFloat.finite 0])
      | none => none

/-- Line 587: `bucketKeys[len(bucketKeys)-1] = math.Inf(1)`. -/
def setLastInf (l : List GoFloat) : List GoFloat := l.dropLast ++ [GoFloat.posInf]

/-- The bucket boundary list of `generateHistogramBuckets`. -/
def mkBucketKeys (opts : BucketOptions) : Option (List GoFloat) :=
  (mkBucketKeysRaw opts).map setLastInf

/-- `generateHistogramBuckets` (lines 556-605): build the boundary list
by variant (`none` is the "Unknown distribution buckets" error) and run
the cumulative walk over it. -/
def generateHistogramBuckets (dist : Distribution) : Option GoMap :=
  (mkBucketKeys dist.bucketOptions).map (fun keys => bucketWalk dist.bucketCounts 0 0 [] keys)

/-!  Time series data model. -/

/-- An RFC3339Nano timestamp string: either one that parses to `t`
nanoseconds since the Unix epoch, or a malformed one. -/
inductive TimeStr where
  | valid (t : ℤ)
  | malformed
deriving DecidableEq, Repr

/-- `time.Parse(time.RFC3339Nano, s)`. -/
def parseRFC3339 : TimeStr → Option ℤ
  | .valid t => some t
  | .malformed => none

/-- `monitoring.TimeInterval`; only `EndTime` is read by the collector. -/
structure Interval where
  endTime : TimeStr
deriving DecidableEq, Repr

/-- `monitoring.TypedValue`: optional pointers for each value kind.
Dereferencing an absent one is a nil-pointer panic. -/
structure TypedValue where
  boolValue : Option Bool
  int64Value : Option ℤ
  doubleValue : Option ℚ
  distributionValue : Option Distribution
deriving DecidableEq, Repr

/-- `monitoring.Point`. -/
structure Point where
  interval : Interval
  value : TypedValue
deriving DecidableEq, Repr

/-- The wire `Metadata.SystemLabels` JSON blob: either it decodes to a
string-to-string map (as an association list) or it does not.  `none` at
the use site covers both a nil `Metadata` and nil `SystemLabels`. -/
inductive SysRaw where
  | decodable (labels : List (String × String))
  | undecodable
deriving DecidableEq, Repr

/-- `monitoring.TimeSeries`, restricted to the fields the collector
reads.  `Metric.Labels` and `Resource.Labels` are flattened into
association lists fixing one map iteration order. -/
structure TimeSeries where
  metricLabels : List (String × String)
  resourceLabels : List (String × String)
  systemLabels : Option SysRaw
  metricKind : String
  valueType : String
  points : List Point
deriving DecidableEq, Repr

/-- The metadata ingest delay string: empty, a duration that parses to
`n` nanoseconds, or a malformed duration. -/
inductive IngestDelayStr where
  | emptyStr
  | validDur (n : ℤ)
  | malformedDur
deriving DecidableEq, Repr

/-- `monitoring.MetricMetadata`, restricted to `IngestDelay`. -/
structure MetricMetadata where
  ingestDelay : IngestDelayStr
deriving DecidableEq, Repr

/-- `monitoring.MetricDescriptor`, restricted to the fields the collector
reads: `Type`, `Unit`, `Metadata`. -/
structure MetricDescriptor where
  typeStr : String
  unit : String
  metadata : Option MetricMetadata
deriving DecidableEq, Repr

/-- The collector configuration fields used on the modelled paths. -/
structure CollectorConfig where
  projectID : String
  aggregateDeltas : Bool
  monitoringDropDelegatedProjects : Bool
  metricsIngestDelay : Bool
deriving DecidableEq, Repr

/-- `prometheus.ValueType` as assigned by the metric-kind switch. -/
inductive PValType where
  | gaugeValue
  | counterValue
deriving DecidableEq, Repr

/-- One emitted sample: the arguments the per-series loop passes to
`CollectNewConstMetric` resp. `CollectNewConstHistogram` (label pairs,
the selected newest end time, the value or the distribution with its
reconstructed buckets, and the series' metric kind string). -/
inductive Sample where
  | scalarS (labels : List (String × String)) (ts : ℤ) (vt : PValType) (v : ℚ) (kind : String)
  | histoS (labels : List (String × String)) (ts : ℤ) (dist : Distribution) (buckets : GoMap)
      (kind : String)
deriving DecidableEq, Repr

/-- Error values flowing into the error channels, abstracted to their
provenance (the collector only ever forwards them). -/
inductive Err where
  | pointParse
  | badDelay
  | api (tag : ℕ)
deriving DecidableEq, Repr

/-- Outcome of processing one `TimeSeries` of a page: a sample was
emitted, the series was skipped (`continue`), the whole page call failed
with an error (`return err`), or the process panicked on a nil-pointer
dereference.  The carried state is the shared `newestTSPoint` variable,
which is declared once per page (line 433) and so leaks from one series
iteration into the next. -/
inductive SeriesStep where
  | emit (s : Sample) (st : Option Point)
  | skip (st : Option Point)
  | fail (e : Err)
  | crash
deriving DecidableEq, Repr

/-- The newest-point selection loop (lines 446-456): start from
`newestEndTime = time.Unix(0, 0)` but keep the incoming `newestTSPoint`;
a point strictly later than the running end time replaces both; a
timestamp parse failure aborts the page call with an error. -/
def selectNewest : ℤ × Option Point → List Point → Except Unit (ℤ × Option Point)
  | acc, [] => .ok acc
  | (nt, np), p :: rest =>
    match parseRFC3339 p.interval.endTime with
    | none => .error ()
    | some t => if nt < t then selectNewest (t, some p) rest else selectNewest (nt, np) rest

/-- `keyExists` (lines 607-615). -/
def keyExists (labelKeys : List String) (key : String) : Bool :=
  labelKeys.any (fun item => item == key)

/-- One step of the label accumulation: append the pair unless its key is
already present. -/
def addIfAbsent (acc : List (String × String)) (kv : String × String) :
    List (String × String) :=
  if keyExists (acc.map Prod.fst) kv.1 then acc else acc ++ [kv]

/-- Label assembly (lines 457-492): start from the reserved `unit` key
with the descriptor's unit, then fold in metric labels, resource labels
and, when present and decodable, system labels, each added only if the
key is not already taken.  `labelKeys`/`labelValues` are two lists kept
in lockstep in Go; they are modelled as one list of pairs. -/
def assembleLabels (d : MetricDescriptor) (ts : TimeSeries) : List (String × String) :=
  let l0 := [("unit", d.unit)]
  let l1 := ts.metricLabels.foldl addIfAbsent l0
  let l2 := ts.resourceLabels.foldl addIfAbsent l1
  match ts.systemLabels with
  | some (.decodable sys) => sys.foldl addIfAbsent l2
  | _ => l2

/-- The delegated-project check (lines 494-507): some assembled label is
`project_id` with a value different from the configured project. -/
def dropDelegatedProject (cfg : CollectorConfig) (labels : List (String × String)) : Bool :=
  labels.any (fun kv => kv.1 == "project_id" && kv.2 != cfg.projectID)

/-- The metric-kind switch (lines 509-522). -/
def metricKindToValueType (kind : String) (aggregateDeltas : Bool) : Option PValType :=
  if kind == "GAUGE" then some .gaugeValue
  else if kind == "DELTA" then some (if aggregateDeltas then .counterValue else .gaugeValue)
  else if kind == "CUMULATIVE" then some .counterValue
  else none

/-- The value-type switch and emission (lines 524-551): decode the value
of the currently selected `newestTSPoint` (dereferencing it and the
typed-value pointer: absent means panic); distributions go through
`generateHistogramBuckets` and are skipped on its error; unrecognized
value types are skipped. -/
def decodeEmit (ts : TimeSeries) (labels : List (String × String)) (vt : PValType)
    (newestEnd : ℤ) (newest : Option Point) : SeriesStep :=
  if ts.valueType == "BOOL" then
    match newest with
    | none => .crash
    | some p =>
      match p.value.boolValue with
      | none => .crash
      | some b => .emit (.scalarS labels newestEnd vt (if b then 1 else 0) ts.metricKind) newest
  else if ts.valueType == "INT64" then
    match newest with
    | none => .crash
    | some p =>
      match p.value.int64Value with
      | none => .crash
      | some z => .emit (.scalarS labels newestEnd vt (z : ℚ) ts.metricKind) newest
  else if ts.valueType == "DOUBLE" then
    match newest with
    | none => .crash
    | some p =>
      match p.value.doubleValue with
      | none => .crash
      | some q => .emit (.scalarS labels newestEnd vt q ts.metricKind) newest
  else if ts.valueType == "DISTRIBUTION" then
    match newest with
    | none => .crash
    | some p =>
      match p.value.distributionValue with
      | none => .crash
      | some dist =>
        match generateHistogramBuckets dist with
        | some buckets => .emit (.histoS labels newestEnd dist buckets ts.metricKind) newest
        | none => .skip newest
  else .skip newest

/-- Processing of one `TimeSeries` inside `reportTimeSeriesMetrics`:
newest-point selection, label assembly, delegated-project filter,
metric-kind switch, value decoding and emission, in source order. -/
def processSeries (cfg : CollectorConfig) (d : MetricDescriptor) (st : Option Point)
    (ts : TimeSeries) : SeriesStep :=
  match selectNewest (0, st) ts.points with
  | .error _ => .fail .pointParse
  | .ok (newestEnd, newest) =>
    let labels := assembleLabels d ts
    if cfg.monitoringDropDelegatedProjects && dropDelegatedProject cfg labels then
      .skip newest
    else
      match metricKindToValueType ts.metricKind cfg.aggregateDeltas with
      | none => .skip newest
      | some vt => decodeEmit ts labels vt newestEnd newest

/-- Outcome of one `reportTimeSeriesMetrics` call. -/
inductive PageOut where
  | okPage
  | errored (e : Err)
  | panicked
deriving DecidableEq, Repr

/-- The per-page series loop, threading the page-local `newestTSPoint`
through the iterations; samples emitted before a failure stay emitted
(they have been sent on the channel already). -/
def processSeriesList (cfg : CollectorConfig) (d : MetricDescriptor) :
    Option Point → List TimeSeries → List Sample × PageOut
  | _, [] => ([], .okPage)
  | st, ts :: rest =>
    match processSeries cfg d st ts with
    | .emit s st' =>
      let r := processSeriesList cfg d st' rest
      (s :: r.1, r.2)
    | .skip st' => processSeriesList cfg d st' rest
    | .fail e => ([], .errored e)
    | .crash => ([], .panicked)

/-- One `monitoring.ListTimeSeriesResponse` page. -/
structure Page where
  timeSeriesL : List TimeSeries
  nextPageToken : String
deriving DecidableEq, Repr

/-- `reportTimeSeriesMetrics` on one page: the shared `newestTSPoint`
starts out nil (it is a local of this function, fresh per page). -/
def processPage (cfg : CollectorConfig) (d : MetricDescriptor) (page : Page) :
    List Sample × PageOut :=
  processSeriesList cfg d none page.timeSeriesL

/-!  Orchestrator (`reportMonitoringMetrics`). -/

/-- One insertion into the `uniqueDescriptors` Go map keyed by
`descriptor.Type` (line 286): a later descriptor with the same type
replaces the earlier one. -/
def dmapInsert : List MetricDescriptor → MetricDescriptor → List MetricDescriptor
  | [], d => [d]
  | e :: t, d => if e.typeStr == d.typeStr then d :: t else e :: dmapInsert t d

/-- The map collapse of lines 284-287: one descriptor per type string. -/
def uniqueDescriptors (ds : List MetricDescriptor) : List MetricDescriptor :=
  ds.foldl dmapInsert []

/-- Lines 291-292: `endTime = now.UTC() - offset`,
`startTime = endTime - interval` (times in nanoseconds). -/
def baseWindow (now offsetNs intervalNs : ℤ) : ℤ × ℤ :=
  (now - offsetNs - intervalNs, now - offsetNs)

/-- The ingest-delay adjustment of lines 307-320, acting on the
goroutine-local copies of `startTime`/`endTime`: shift both back by the
parsed delay; a malformed delay is a fatal error for this descriptor. -/
def windowFor (cfg : CollectorConfig) (base : ℤ × ℤ) (d : MetricDescriptor) :
    Except Err (ℤ × ℤ) :=
  if cfg.metricsIngestDelay then
    match d.metadata with
    | none => .ok base
    | some md =>
      match md.ingestDelay with
      | .emptyStr => .ok base
      | .malformedDur => .error .badDelay
      | .validDur n => .ok (base.1 - n, base.2 - n)
  else .ok base

/-- The time-series fetches one `metricDescriptorsFunction` call issues:
one per unique descriptor whose window computation succeeded, tagged
with the window it queries. -/
def issuedFetches (cfg : CollectorConfig) (base : ℤ × ℤ) (ds : List MetricDescriptor) :
    List (String × (ℤ × ℤ)) :=
  (uniqueDescriptors ds).filterMap
    (fun d => ((windowFor cfg base d).toOption).map (fun w => (d.typeStr, w)))

/-- One `timeSeriesListCall.Do()` result: a transport error, a nil page,
or a page. -/
inductive ApiResp where
  | failure (e : Err)
  | missingPage
  | okPage (p : Page)
deriving DecidableEq, Repr

/-- Outcome of one descriptor goroutine: a panic (crashing the process)
or completion with the samples it sent and at most one error pushed to
the channel. -/
inductive UnitOut where
  | crashed
  | finished (samples : List Sample) (err : Option Err)
deriving DecidableEq, Repr

/-- The pagination loop of lines 345-365 over a pre-recorded stream of
API responses: a transport error is pushed and the loop stops; a nil
page stops silently; a page is reported and, on a reporting error, the
error is pushed and the loop stops; an empty next-page token stops.  An
exhausted response stream behaves like a nil page. -/
def runPages (cfg : CollectorConfig) (d : MetricDescriptor) : List ApiResp → UnitOut
  | [] => .finished [] none
  | r :: rest =>
    match r with
    | .failure e => .finished [] (some e)
    | .missingPage => .finished [] none
    | .okPage p =>
      match processPage cfg d p with
      | (samples, .errored e) => .finished samples (some e)
      | (_, .panicked) => .crashed
      | (samples, .okPage) =>
        if p.nextPageToken == "" then .finished samples none
        else
          match runPages cfg d rest with
          | .crashed => .crashed
          | .finished more e => .finished (samples ++ more) e

/-- One descriptor goroutine (lines 296-366): compute the window (a
malformed ingest delay pushes an error and returns) and run the
pagination loop against the environment's responses for this type. -/
def runUnit (cfg : CollectorConfig) (base : ℤ × ℤ) (api : String → List ApiResp)
    (d : MetricDescriptor) : UnitOut :=
  match windowFor cfg base d with
  | .error e => .finished [] (some e)
  | .ok _ => runPages cfg d (api d.typeStr)

def UnitOut.samplesOf : UnitOut → List Sample
  | .crashed => []
  | .finished s _ => s

def UnitOut.errOf : UnitOut → Option Err
  | .crashed => none
  | .finished _ e => e

/-- One unit joining the barrier: a panic crashes the scrape, otherwise
the unit's samples extend the channel output and its error, if any, is
buffered behind the earlier ones. -/
def unitStep (cfg : CollectorConfig) (base : ℤ × ℤ) (api : String → List ApiResp)
    (acc : Option (List Sample × List Err)) (d : MetricDescriptor) :
    Option (List Sample × List Err) :=
  match acc with
  | none => none
  | some (samples, errs) =>
    match runUnit cfg base api d with
    | .crashed => none
    | .finished s e => some (samples ++ s, errs ++ e.toList)

/-- `metricDescriptorsFunction` (lines 272-373) under the fixed schedule:
run every unit of the deduplicated descriptor list to completion,
concatenating the samples sent on the metric channel and the errors
buffered in the error channel, in unit order; a panic in any unit
crashes the whole scrape (`none`). -/
def runDescriptors (cfg : CollectorConfig) (base : ℤ × ℤ) (api : String → List ApiResp)
    (ds : List MetricDescriptor) : Option (List Sample × List Err) :=
  (uniqueDescriptors ds).foldl (unitStep cfg base api) (some ([], []))

/-- Lines 369-372: after the wait-barrier the channel is closed and read
once; on a closed channel that read yields the first buffered error, or
the zero value (no error) when the buffer is empty. -/
def firstBufferedErr (errs : List Err) : Option Err := errs.head?

/-- The descriptor types fetched by one `metricDescriptorsFunction`
invocation: one fetch per entry of the collapsed map. -/
def fetchTypesForCall (ds : List MetricDescriptor) : List String :=
  (uniqueDescriptors ds).map (fun d => d.typeStr)

/-- The fetches issued on a descriptor-cache miss for one configured
type prefix: the `Pages` callback (lines 400-404) runs the whole
descriptor function once per received page, so the dedup map is rebuilt
per page. -/
def missFetchTypes (pages : List (List MetricDescriptor)) : List String :=
  (pages.map fetchTypesForCall).flatten

/-- Environment of one scrape, as seen by the prefix-level units: the
result of the descriptor-cache Lookup per prefix, the descriptor-listing
pages delivered on a miss with an optional trailing transport error
ending the stream, and the time-series responses per descriptor type. -/
structure ScrapeEnv where
  cacheOf : String → Option (List MetricDescriptor)
  descPages : String → List (List MetricDescriptor)
  descErr : String → Option Err
  api : String → List ApiResp

/-- The `Pages` pagination of the descriptor listing on a cache miss
(lines 400-411): each received page is passed through the descriptor
function as it arrives (the callback); a callback error aborts the
pagination and is returned (later pages are not fetched, samples already
sent stay sent); when every page has arrived, the stream's transport
error, if any, is returned.  The callback's error is the first error
buffered by that call's descriptor-level channel; a panicking unit
crashes the scrape (`none`). -/
def runDescPages (cfg : CollectorConfig) (base : ℤ × ℤ) (api : String → List ApiResp) :
    List (List MetricDescriptor) → Option Err → Option (List Sample × Option Err)
  | [], derr => some ([], derr)
  | pg :: rest, derr =>
    match runDescriptors cfg base api pg with
    | none => none
    | some (samples, errs) =>
      match errs.head? with
      | some e => some (samples, some e)
      | none =>
        match runDescPages cfg base api rest derr with
        | none => none
        | some (more, e) => some (samples ++ more, e)

/-- One prefix-level goroutine (lines 379-415): on a cache hit, run the
descriptor function once over the cached list and push its returned
(first-buffered) error, if any; on a miss, page through the listing via
the callback.  At most one error is pushed per prefix unit; `none` is a
process-crashing panic in some descendant unit. -/
def runPrefixUnit (cfg : CollectorConfig) (base : ℤ × ℤ) (env : ScrapeEnv)
    (p : String) : Option (List Sample × Option Err) :=
  match env.cacheOf p with
  | some cached =>
    match runDescriptors cfg base env.api cached with
    | none => none
    | some (samples, errs) => some (samples, errs.head?)
  | none => runDescPages cfg base env.api (env.descPages p) (env.descErr p)

def prefixSamplesOf : Option (List Sample × Option Err) → List Sample
  | none => []
  | some (s, _) => s

def prefixErrOf : Option (List Sample × Option Err) → Option Err
  | none => none
  | some (_, e) => e

/-- One prefix unit joining the scrape-level barrier: a panic crashes
the scrape, otherwise its samples extend the channel output and its
error, if any, is buffered behind the earlier ones. -/
def prefixStep (cfg : CollectorConfig) (base : ℤ × ℤ) (env : ScrapeEnv)
    (acc : Option (List Sample × List Err)) (p : String) :
    Option (List Sample × List Err) :=
  match acc with
  | none => none
  | some (samples, errs) =>
    match runPrefixUnit cfg base env p with
    | none => none
    | some (s, e) => some (samples ++ s, errs ++ e.toList)

/-- `reportMonitoringMetrics` (lines 375-423) under the fixed schedule:
one unit per configured prefix (not deduplicated), all run to
completion; the scrape-level error channel is the list of the units'
errors in schedule order. -/
def reportMonitoringMetrics (cfg : CollectorConfig) (base : ℤ × ℤ) (env : ScrapeEnv)
    (pfxs : List String) : Option (List Sample × List Err) :=
  pfxs.foldl (prefixStep cfg base env) (some ([], []))

/-- Lines 418-422: wait for every prefix unit, close the scrape channel
and read it once — the first buffered error, or nil when empty — as the
scrape's terminal error (`none` of the outer Option is a crashed
scrape). -/
def scrapeTerminalErr (r : Option (List Sample × List Err)) : Option (Option Err) :=
  r.map (fun pr => firstBufferedErr pr.2)

/-!  Descriptor cache. -/

/-- `strings.Split(name, "/")[0]`: the part before the first slash. -/
def firstSegment (s : String) : String :=
  String.mk (s.data.takeWhile (fun c => c != '/'))

/-- `strings.Contains` on character lists. -/
def listContainsSub (hay pat : List Char) : Bool :=
  (List.range (hay.length + 1)).any (fun i => pat.isPrefixOf (hay.drop i))

/-- `isGoogleMetric` (lines 101-104): the first path segment contains
the substring `googleapis.com`. -/
def isGoogleMetric (name : String) : Bool :=
  listContainsSub (firstSegment name).data "googleapis.com".data

/-- One entry of the inner TTL cache: key, descriptor list, expiry. -/
structure DCacheEntry where
  keyPfx : String
  items : List MetricDescriptor
  expiry : ℤ
deriving DecidableEq, Repr

/-- State of the inner TTL descriptor cache. -/
abbrev DCacheState := List DCacheEntry

/-- Modelled from the spec: `Lookup` of the plain TTL `descriptorCache`
type, whose source is not part of src.  Per the spec, an entry is read
on hit while `now < expiry`, otherwise treated as a miss. -/
def innerLookup (now : ℤ) (st : DCacheState) (k : String) :
    Option (List MetricDescriptor) :=
  match st.find? (fun e => e.keyPfx == k) with
  | some e => if now < e.expiry then some e.items else none
  | none => none

/-- Modelled from the spec: `Store` of the plain TTL `descriptorCache`
type, whose source is not part of src.  Per the spec it overwrites the
entry for the key with expiry `now + ttl`. -/
def innerStore (now ttl : ℤ) (st : DCacheState) (k : String)
    (data : List MetricDescriptor) : DCacheState :=
  ⟨k, data, now + ttl⟩ :: st.filter (fun e => e.keyPfx != k)

/-- `googleDescriptorCache.Lookup` (lines 110-115). -/
def googleLookup (now : ℤ) (st : DCacheState) (k : String) :
    Option (List MetricDescriptor) :=
  if !isGoogleMetric k then none else innerLookup now st k

/-- `googleDescriptorCache.Store` (lines 117-122). -/
def googleStore (now ttl : ℤ) (st : DCacheState) (k : String)
    (data : List MetricDescriptor) : DCacheState :=
  if !isGoogleMetric k then st else innerStore now ttl st k data

/-!  Auxiliary definitions used by the statements of the theorems. -/

/-- One step of the cumulative count: `uint64(c) + a` with uint64
wraparound. -/
def addU64 (a : ℕ) (c : ℤ) : ℕ := (u64 c + a) % U64MOD

/-- The parsed end time of a point, defaulting to the epoch for a
malformed one (only used under a hypothesis ruling malformed out). -/
def endD (p : Point) : ℤ :=
  match p.interval.endTime with
  | .valid t => t
  | .malformed => 0

/-- Running maximum of the parsed end times, seeded with `nt`. -/
def maxEndFrom (nt : ℤ) (pts : List Point) : ℤ :=
  pts.foldl (fun a p => max a (endD p)) nt

/-- The timestamp attached to an emitted sample. -/
def sampleTime : Sample → ℤ
  | .scalarS _ t _ _ _ => t
  | .histoS _ t _ _ _ => t

/-- Scalar value decoding per value kind, as a total specification of
the value switch: BOOL to 0 or 1, INT64 to its numeric value, DOUBLE
as-is, anything else no scalar. -/
def scalarDecode (vt : String) (tv : TypedValue) : Option ℚ :=
  if vt = "BOOL" then tv.boolValue.map (fun b => if b then (1 : ℚ) else 0)
  else if vt = "INT64" then tv.int64Value.map (fun z => (z : ℚ))
  else if vt = "DOUBLE" then tv.doubleValue
  else none

/-- The statement that a sample's payload was decoded from point `p`:
a scalar sample carries the decoded scalar of `p`, a histogram sample
carries the distribution of `p` and its reconstructed buckets. -/
def sampleFromPoint (vt : String) (p : Point) : Sample → Prop
  | .scalarS _ _ _ v _ => scalarDecode vt p.value = some v
  | .histoS _ _ dist b _ =>
      p.value.distributionValue = some dist ∧ generateHistogramBuckets dist = some b

/-- The metric / resource / system label groups concatenated in source
order, used to state the first-occurrence-wins lookup property. -/
def sysLabelList (ts : TimeSeries) : List (String × String) :=
  match ts.systemLabels with
  | some (.decodable l) => l
  | _ => []

/-- The pairs of one label group that actually enter the assembled list
when folded onto `acc`: the first occurrences of keys not already
present, in group order. -/
def newLabels (acc : List (String × String)) :
    List (String × String) → List (String × String)
  | [] => []
  | x :: t =>
    if keyExists (acc.map Prod.fst) x.1 then newLabels acc t
    else x :: newLabels (acc ++ [x]) t

/-!  Concrete inputs used by witnesses and counterexamples. -/

def tvOfInt (z : ℤ) : TypedValue := ⟨none, some z, none, none⟩

def cfgPlain : CollectorConfig := ⟨"my-project", false, false, false⟩

def descPlain : MetricDescriptor := ⟨"custom.metrics.example.com/svc/m", "By", none⟩

def c1PointA : Point := ⟨⟨.valid 10⟩, tvOfInt 7⟩

def c1SeriesA : TimeSeries := ⟨[], [], none, "GAUGE", "INT64", [c1PointA]⟩

def c1SeriesEmpty : TimeSeries := ⟨[], [], none, "GAUGE", "INT64", []⟩

def c2Desc : MetricDescriptor := ⟨"router.googleapis.com/x", "1", none⟩

def c3Dist : Distribution := ⟨⟨some ⟨[1, 2]⟩, none, none⟩, [2, 3, 4]⟩

def c3Keys : List GoFloat := [.finite 1, .finite 2, .posInf]

def c4DistLinear : Distribution := ⟨⟨none, some ⟨3, 2, 0⟩, none⟩, [1, 1, 1, 1, 1]⟩

def c4DistUnknown : Distribution := ⟨⟨none, none, none⟩, [1]⟩

def c4DistExpl : Distribution := ⟨⟨some ⟨[5]⟩, none, none⟩, [1, 2]⟩

def c4SeriesUnknown : TimeSeries :=
  ⟨[], [], none, "GAUGE", "DISTRIBUTION",
    [⟨⟨.valid 4⟩, ⟨none, none, none, some c4DistUnknown⟩⟩]⟩

def c5SeriesEpoch : TimeSeries := ⟨[], [], none, "GAUGE", "INT64", [⟨⟨.valid 0⟩, tvOfInt 5⟩]⟩

def c5Series : TimeSeries :=
  ⟨[], [], none, "GAUGE", "INT64",
    [⟨⟨.valid 1⟩, tvOfInt 1⟩, ⟨⟨.valid 3⟩, tvOfInt 3⟩, ⟨⟨.valid 2⟩, tvOfInt 2⟩]⟩

def c7SeriesOther : TimeSeries :=
  ⟨[], [], none, "FOO", "INT64", [⟨⟨.valid 4⟩, tvOfInt 9⟩]⟩

def c8DescOk : MetricDescriptor := ⟨"svc/ok", "1", none⟩

def c8DescBad : MetricDescriptor := ⟨"svc/bad", "1", none⟩

def c8GoodSample : Sample := .scalarS [("unit", "1")] 10 .gaugeValue 7 "GAUGE"

def c8Api (t : String) : List ApiResp :=
  if t == "svc/bad" then [.failure (.api 1)]
  else [.okPage ⟨[⟨[], [], none, "GAUGE", "INT64", [⟨⟨.valid 10⟩, tvOfInt 7⟩]⟩], ""⟩]

def c8Env : ScrapeEnv :=
  ⟨fun p => if p == "pfx1" then some [c8DescBad] else none,
   fun p => if p == "pfx2" then [[c8DescOk]] else [],
   fun _ => none,
   c8Api⟩

def c10CfgDelay : CollectorConfig := ⟨"my-project", false, false, true⟩

def c10DescDelay : MetricDescriptor := ⟨"svc/delayed", "1", some ⟨.validDur 50⟩⟩

def c10DescPlain : MetricDescriptor := ⟨"svc/plain", "1", none⟩

/-!  Theorems. -/

/-- C1: the claim states that a `TimeSeries` whose Points list is empty
is skipped, with no sample emitted and no point value decoded for it.
The code does not skip it: `newestTSPoint` is declared once per page and
shared across the per-series loop, so when the empty series comes first
the nil `newestTSPoint` is dereferenced — a runtime panic (first
conjunct) — and when it follows a non-empty series, a sample is emitted
for the empty series carrying the previous series' point value `7` at
the epoch timestamp (second conjunct). -/
theorem c1_empty_points_series_not_skipped :
    processPage cfgPlain descPlain ⟨[c1SeriesEmpty], ""⟩ = ([], .panicked) ∧
    (processPage cfgPlain descPlain ⟨[c1SeriesA, c1SeriesEmpty], ""⟩).1 =
      [.scalarS [("unit", "By")] 10 .gaugeValue 7 "GAUGE",
       .scalarS [("unit", "By")] 0 .gaugeValue 7 "GAUGE"] :=
  ⟨rfl, rfl⟩

/-- C2 counterexample: the claim promises exactly one time-series fetch
per distinct descriptor type for a multiset split across several
descriptor-listing pages, but the dedup map is rebuilt per page, so the
same type arriving on two pages is fetched twice. -/
theorem c2_counterexample_cross_page_duplicate :
    missFetchTypes [[c2Desc], [c2Desc]]
      = ["router.googleapis.com/x", "router.googleapis.com/x"] ∧
    (missFetchTypes [[c2Desc], [c2Desc]]).count "router.googleapis.com/x" = 2 :=
  ⟨rfl, rfl⟩

/-- The type strings of a Go-map insertion: unchanged when the type is
already present (the value is replaced in place), appended otherwise. -/
theorem dmapInsert_types (m : List MetricDescriptor) (d : MetricDescriptor) :
    (dmapInsert m d).map MetricDescriptor.typeStr =
      if d.typeStr ∈ m.map MetricDescriptor.typeStr then m.map MetricDescriptor.typeStr
      else m.map MetricDescriptor.typeStr ++ [d.typeStr] := by
  induction m with
  | nil => simp [dmapInsert]
  | cons e t ih =>
    by_cases h : e.typeStr = d.typeStr
    · simp [dmapInsert, h]
    · have hb : (e.typeStr == d.typeStr) = false := by simp [h]
      simp only [dmapInsert, hb, Bool.false_eq_true, if_false, List.map_cons, ih,
        List.mem_cons]
      by_cases hm : d.typeStr ∈ t.map MetricDescriptor.typeStr
      · simp [hm, Ne.symm h]
      · simp [hm, Ne.symm h]

/-- Membership in the map-collapsed types: exactly the input types plus
the accumulator's. -/
theorem foldl_dmapInsert_types_mem (ds : List MetricDescriptor) :
    ∀ (m : List MetricDescriptor) (x : String),
      x ∈ (ds.foldl dmapInsert m).map MetricDescriptor.typeStr ↔
        x ∈ m.map MetricDescriptor.typeStr ∨ x ∈ ds.map MetricDescriptor.typeStr := by
  induction ds with
  | nil => simp
  | cons d t ih =>
    intro m x
    rw [List.foldl_cons, ih, dmapInsert_types]
    by_cases hm : d.typeStr ∈ m.map MetricDescriptor.typeStr
    · simp only [hm, if_true, List.map_cons, List.mem_cons]
      constructor
      · tauto
      · rintro (h | rfl | h)
        · tauto
        · exact Or.inl hm
        · tauto
    · simp only [hm, if_false, List.map_cons, List.mem_cons, List.mem_append,
        List.mem_singleton]
      tauto

/-- The map-collapsed type strings are duplicate-free. -/
theorem foldl_dmapInsert_types_nodup (ds : List MetricDescriptor) :
    ∀ m : List MetricDescriptor, (m.map MetricDescriptor.typeStr).Nodup →
      ((ds.foldl dmapInsert m).map MetricDescriptor.typeStr).Nodup := by
  induction ds with
  | nil => intro m h; simpa using h
  | cons d t ih =>
    intro m h
    rw [List.foldl_cons]
    apply ih
    rw [dmapInsert_types]
    by_cases hm : d.typeStr ∈ m.map MetricDescriptor.typeStr
    · simpa [hm] using h
    · simp [hm, h, List.nodup_append]

/-- C2, amended: within one invocation of the descriptor-processing
function (one cached list, or one descriptor-listing page on a cache
miss), exactly one time-series fetch is issued per distinct descriptor
type string of that invocation's list — for every type present the
fetch-type list contains it exactly once, and absent types are never
fetched.  (Across pages the dedup map is rebuilt, see the
counterexample.) -/
theorem c2_one_fetch_per_type_per_call (ds : List MetricDescriptor) (t : String) :
    (fetchTypesForCall ds).count t =
      if t ∈ ds.map MetricDescriptor.typeStr then 1 else 0 := by
  have hnd : (fetchTypesForCall ds).Nodup := by
    simpa [fetchTypesForCall, uniqueDescriptors] using
      foldl_dmapInsert_types_nodup ds [] (by simp)
  have hmem : t ∈ fetchTypesForCall ds ↔ t ∈ ds.map MetricDescriptor.typeStr := by
    simpa [fetchTypesForCall, uniqueDescriptors] using
      foldl_dmapInsert_types_mem ds [] t
  by_cases h : t ∈ ds.map MetricDescriptor.typeStr
  · rw [if_pos h]
    exact List.count_eq_one_of_mem hnd (hmem.mpr h)
  · rw [if_neg h]
    exact List.count_eq_zero_of_not_mem (fun hc => h (hmem.mp hc))

/-- Looking up the freshly inserted key yields the inserted value. -/
theorem mapInsert_lookup_self (m : GoMap) (k : GoFloat) (v : ℕ) :
    (mapInsert m k v).lookup k = some v := by
  induction m with
  | nil => simp [mapInsert, List.lookup]
  | cons p t ih =>
    obtain ⟨pk, pv⟩ := p
    by_cases h : pk = k
    · subst h
      simp [mapInsert, List.lookup]
    · have hb : (pk == k) = false := by simp [h]
      have hb' : (k == pk) = false := by simp [Ne.symm h]
      simp [mapInsert, hb, List.lookup, hb', ih]

/-- Inserting one key leaves lookups of other keys unchanged. -/
theorem mapInsert_lookup_ne (m : GoMap) (k : GoFloat) (v : ℕ) (k' : GoFloat)
    (h : k' ≠ k) : (mapInsert m k v).lookup k' = m.lookup k' := by
  have hb : (k' == k) = false := by simp [h]
  induction m with
  | nil => simp [mapInsert, List.lookup, hb]
  | cons p t ih =>
    obtain ⟨pk, pv⟩ := p
    by_cases hp : pk = k
    · subst hp
      simp [mapInsert, List.lookup, hb]
    · have hpb : (pk == k) = false := by simp [hp]
      simp [mapInsert, hpb, List.lookup, ih]

/-- Inserting an absent key appends the binding. -/
theorem mapInsert_absent (m : GoMap) (k : GoFloat) (v : ℕ)
    (h : ∀ q ∈ m, q.1 ≠ k) : mapInsert m k v = m ++ [(k, v)] := by
  induction m with
  | nil => simp [mapInsert]
  | cons p t ih =>
    have hp : p.1 ≠ k := h p (by simp)
    simp only [mapInsert, beq_iff_eq, hp, if_false]
    rw [ih (fun q hq => h q (by simp [hq]))]
    simp

/-- Every key of the inserted map is the new key or an old key. -/
theorem mapInsert_fst_mem (m : GoMap) (k : GoFloat) (v : ℕ) :
    ∀ q ∈ mapInsert m k v, q.1 = k ∨ q.1 ∈ m.map Prod.fst := by
  induction m with
  | nil =>
    intro q hq
    simp only [mapInsert, List.mem_singleton] at hq
    subst hq
    exact Or.inl rfl
  | cons p t ih =>
    intro q hq
    by_cases hp : p.1 = k
    · have hb : (p.1 == k) = true := by simp [hp]
      simp only [mapInsert, hb, if_true, List.mem_cons] at hq
      rcases hq with rfl | hq
      · exact Or.inl rfl
      · exact Or.inr (List.mem_cons_of_mem _ (List.mem_map_of_mem _ hq))
    · have hb : (p.1 == k) = false := by simp [hp]
      simp only [mapInsert, hb, Bool.false_eq_true, if_false, List.mem_cons] at hq
      rcases hq with rfl | hq
      · exact Or.inr (by simp)
      · rcases ih q hq with h1 | h1
        · exact Or.inl h1
        · exact Or.inr (List.mem_cons_of_mem _ h1)

/-- Walking keys not containing `k` leaves the lookup of `k` alone. -/
theorem bucketWalk_lookup_absent (counts : List ℤ) (keys : List GoFloat) :
    ∀ (i last : ℕ) (m : GoMap) (k : GoFloat), k ∉ keys →
      (bucketWalk counts i last m keys).lookup k = m.lookup k := by
  induction keys with
  | nil => intro i last m k _; simp [bucketWalk]
  | cons b rest ih =>
    intro i last m k hk
    have hkb : k ≠ b := fun h => hk (by simp [h])
    have hkr : k ∉ rest := fun h => hk (by simp [h])
    by_cases h : i < counts.length
    · simp only [bucketWalk, h, dif_pos]
      rw [ih _ _ _ _ hkr, mapInsert_lookup_ne _ _ _ _ hkb]
    · simp only [bucketWalk, h, dif_neg, not_false_iff]
      rw [ih _ _ _ _ hkr, mapInsert_lookup_ne _ _ _ _ hkb]

/-- The cumulative walk: for duplicate-free keys, the value stored at
the `j`-th key is the running total after folding the available source
counts `counts[i], ..., counts[i+j]` (fewer when the count array runs
out) into the incoming total `last`. -/
theorem bucketWalk_lookup_get (counts : List ℤ) (keys : List GoFloat) :
    ∀ (i last : ℕ) (m : GoMap), keys.Nodup →
      ∀ j (hj : j < keys.length),
        (bucketWalk counts i last m keys).lookup (keys.get ⟨j, hj⟩) =
          some (((counts.drop i).take (j + 1)).foldl addU64 last) := by
  induction keys with
  | nil => intro i last m _ j hj; exact absurd hj (by simp)
  | cons b rest ih =>
    intro i last m hnd j hj
    have hbr : b ∉ rest := by
      simp only [List.nodup_cons] at hnd; exact hnd.1
    have hndr : rest.Nodup := by
      simp only [List.nodup_cons] at hnd; exact hnd.2
    by_cases h : i < counts.length
    · have hdrop : counts.drop i = counts.get ⟨i, h⟩ :: counts.drop (i + 1) :=
        List.drop_eq_getElem_cons h
      simp only [bucketWalk, h, dif_pos]
      match j with
      | 0 =>
        have htake1 : (counts.drop i).take 1 = [counts.get ⟨i, h⟩] := by rw [hdrop]; rfl
        simp only [List.get]
        rw [bucketWalk_lookup_absent _ _ _ _ _ _ hbr, mapInsert_lookup_self, htake1]
        rfl
      | Nat.succ j' =>
        have htake : (counts.drop i).take (j' + 1 + 1) =
            counts.get ⟨i, h⟩ :: (counts.drop (i + 1)).take (j' + 1) := by rw [hdrop]; rfl
        simp only [List.get]
        rw [ih (i + 1) _ _ hndr j' (by simpa using hj), htake]
        rfl
    · have hdrop : counts.drop i = [] :=
        List.drop_eq_nil_of_le (Nat.le_of_not_lt h)
      have hdrop1 : counts.drop (i + 1) = [] :=
        List.drop_eq_nil_of_le (Nat.le_of_not_lt (fun hlt => h (Nat.lt_of_succ_lt hlt)))
      simp only [bucketWalk, h, dif_neg, not_false_iff]
      match j with
      | 0 =>
        have htake1 : (counts.drop i).take 1 = [] := by rw [hdrop]; rfl
        simp only [List.get]
        rw [bucketWalk_lookup_absent _ _ _ _ _ _ hbr, mapInsert_lookup_self, htake1]
        rfl
      | Nat.succ j' =>
        have htake : (counts.drop i).take (j' + 1 + 1) = [] := by rw [hdrop]; rfl
        have htake1 : (counts.drop (i + 1)).take (j' + 1) = [] := by rw [hdrop1]; rfl
        simp only [List.get]
        rw [ih (i + 1) _ _ hndr j' (by simpa using hj), htake, htake1]

/-- C3: for a distribution with a recognized bucket-option variant (and
well-formed data: duplicate-free boundaries, a count array no longer
than the boundary list, as the API guarantees), the generated map sends
the boundary at index `j` to the running total after adding
`sourceCount[j]` when it exists — i.e. the fold of the first `j+1`
source counts, which equals the unchanged running total when the count
array is shorter — and sends the final +infinity boundary to the grand
total of all source counts (uint64 arithmetic throughout). -/
theorem c3_cumulative_bucket_counts (dist : Distribution) (keys : List GoFloat)
    (hk : mkBucketKeys dist.bucketOptions = some keys)
    (hnd : keys.Nodup)
    (hlen : dist.bucketCounts.length ≤ keys.length) :
    generateHistogramBuckets dist = some (bucketWalk dist.bucketCounts 0 0 [] keys) ∧
    (∀ j (hj : j < keys.length),
      (bucketWalk dist.bucketCounts 0 0 [] keys).lookup (keys.get ⟨j, hj⟩) =
        some ((dist.bucketCounts.take (j + 1)).foldl addU64 0)) ∧
    (bucketWalk dist.bucketCounts 0 0 [] keys).lookup GoFloat.posInf =
      some (dist.bucketCounts.foldl addU64 0) := by
  refine ⟨by simp [generateHistogramBuckets, hk], ?_, ?_⟩
  · intro j hj
    have := bucketWalk_lookup_get dist.bucketCounts keys 0 0 [] hnd j hj
    simpa using this
  · obtain ⟨raw, hraw, hkeys⟩ : ∃ raw, mkBucketKeysRaw dist.bucketOptions = some raw ∧
        setLastInf raw = keys := by
      simpa [mkBucketKeys, Option.map_eq_some'] using hk
    have hshape : keys = raw.dropLast ++ [GoFloat.posInf] := by
      rw [← hkeys]; rfl
    have hlenk : keys.length = raw.dropLast.length + 1 := by simp [hshape]
    have hidx : raw.dropLast.length < keys.length := by omega
    have hget : keys.get ⟨raw.dropLast.length, hidx⟩ = GoFloat.posInf := by
      subst hshape
      simp
    have hwalk := bucketWalk_lookup_get dist.bucketCounts keys 0 0 [] hnd
      raw.dropLast.length hidx
    have htake : dist.bucketCounts.take (raw.dropLast.length + 1) = dist.bucketCounts :=
      List.take_of_length_le (by omega)
    rw [hget, List.drop_zero, htake] at hwalk
    exact hwalk

/-- C3 witness: explicit bounds `[1,2]` with source counts `[2,3,4]`
produce cumulative counts `2`, `2+3`, `2+3+4` at boundaries `1`, `2`,
+infinity. -/
theorem c3_cumulative_bucket_counts_witness :
    (generateHistogramBuckets c3Dist = some (bucketWalk c3Dist.bucketCounts 0 0 [] c3Keys) ∧
      (∀ j (hj : j < c3Keys.length),
        (bucketWalk c3Dist.bucketCounts 0 0 [] c3Keys).lookup (c3Keys.get ⟨j, hj⟩) =
          some ((c3Dist.bucketCounts.take (j + 1)).foldl addU64 0)) ∧
      (bucketWalk c3Dist.bucketCounts 0 0 [] c3Keys).lookup GoFloat.posInf =
        some (c3Dist.bucketCounts.foldl addU64 0)) ∧
    generateHistogramBuckets c3Dist =
      some [(.finite 1, 2), (.finite 2, 5), (.posInf, 9)] :=
  ⟨c3_cumulative_bucket_counts c3Dist c3Keys rfl (by decide) (by decide), rfl⟩

/-- Every boundary produced by the raw construction is finite (the
+infinity overwrite happens afterwards). -/
theorem mkBucketKeysRaw_finite (opts : BucketOptions) (raw : List GoFloat)
    (h : mkBucketKeysRaw opts = some raw) : ∀ b ∈ raw, b ≠ GoFloat.posInf := by
  rcases opts with ⟨e, l, x⟩
  rcases e with _ | eb
  · rcases l with _ | lb
    · rcases x with _ | xb
      · simp [mkBucketKeysRaw] at h
      · simp only [mkBucketKeysRaw, Option.some.injEq] at h
        subst h
        intro b hb
        rcases List.mem_append.mp hb with hb | hb
        · obtain ⟨i, _, rfl⟩ := List.mem_map.mp hb
          simp
        · simp only [List.mem_singleton] at hb
          subst hb
          simp
    · simp only [mkBucketKeysRaw, Option.some.injEq] at h
      subst h
      intro b hb
      rcases List.mem_append.mp hb with hb | hb
      · obtain ⟨i, _, rfl⟩ := List.mem_map.mp hb
        simp
      · simp only [List.mem_singleton] at hb
        subst hb
        simp
  · simp only [mkBucketKeysRaw, Option.some.injEq] at h
    subst h
    intro b hb
    rcases List.mem_append.mp hb with hb | hb
    · obtain ⟨q, _, rfl⟩ := List.mem_map.mp hb
      simp
    · simp only [List.mem_singleton] at hb
      subst hb
      simp

/-- The walk over keys ending in +infinity (with +infinity occurring
nowhere else) produces a map whose final binding is the +infinity
bucket. -/
theorem bucketWalk_getLast_posInf (counts : List ℤ) (ks : List GoFloat) :
    ∀ (i last : ℕ) (m : GoMap), (∀ q ∈ m, q.1 ≠ GoFloat.posInf) →
      (∀ b ∈ ks, b ≠ GoFloat.posInf) →
      ∃ v, (bucketWalk counts i last m (ks ++ [GoFloat.posInf])).getLast? =
        some (GoFloat.posInf, v) := by
  induction ks with
  | nil =>
    intro i last m hm _
    by_cases h : i < counts.length
    · refine ⟨(u64 (counts.get ⟨i, h⟩) + last) % U64MOD, ?_⟩
      simp only [List.nil_append, bucketWalk, h, dif_pos]
      rw [mapInsert_absent _ _ _ hm]
      exact List.getLast?_concat _
    · refine ⟨last, ?_⟩
      simp only [List.nil_append, bucketWalk, h, dif_neg, not_false_iff]
      rw [mapInsert_absent _ _ _ hm]
      exact List.getLast?_concat _
  | cons b t ih =>
    intro i last m hm hks
    have hb : b ≠ GoFloat.posInf := hks b (by simp)
    have hks' : ∀ q ∈ t, q ≠ GoFloat.posInf := fun q hq => hks q (by simp [hq])
    have hm' : ∀ (w : ℕ) (q : GoFloat × ℕ), q ∈ mapInsert m b w → q.1 ≠ GoFloat.posInf := by
      intro w q hq
      rcases mapInsert_fst_mem m b w q hq with h1 | h1
      · rw [h1]; exact hb
      · obtain ⟨r, hr, hr2⟩ := List.mem_map.mp h1
        rw [← hr2]; exact hm r hr
    by_cases h : i < counts.length
    · simp only [List.cons_append, bucketWalk, h, dif_pos]
      exact ih (i + 1) _ _ (hm' _) hks'
    · simp only [List.cons_append, bucketWalk, h, dif_neg, not_false_iff]
      exact ih (i + 1) _ _ (hm' _) hks'

/-- C4: boundary construction by variant — explicit: exactly the
declared bounds plus one trailing +infinity boundary; linear:
`offset + i*width` for `i` in `[0, numFiniteBuckets]` plus +infinity,
`numFiniteBuckets + 2` boundaries in total; exponential:
`scale * growthFactor^i` likewise; every returned bucket map terminates
in the +infinity bucket; with no recognized variant the builder fails
(returns no buckets) and the calling series loop skips the series. -/
theorem c4_bucket_boundaries :
    (∀ (eb : ExplicitB) (lb : Option LinearB) (xb : Option ExponentialB),
      mkBucketKeys ⟨some eb, lb, xb⟩ =
        some (eb.bounds.map GoFloat.finite ++ [GoFloat.posInf])) ∧
    (∀ (lb : LinearB) (xb : Option ExponentialB),
      mkBucketKeys ⟨none, some lb, xb⟩ =
        some ((List.range (lb.numFiniteBuckets + 1)).map
          (fun i : ℕ => GoFloat.finite (lb.offset + (i : ℚ) * lb.width)) ++ [GoFloat.posInf]) ∧
      ((List.range (lb.numFiniteBuckets + 1)).map
          (fun i : ℕ => GoFloat.finite (lb.offset + (i : ℚ) * lb.width)) ++
        [GoFloat.posInf]).length = lb.numFiniteBuckets + 2) ∧
    (∀ xb : ExponentialB,
      mkBucketKeys ⟨none, none, some xb⟩ =
        some ((List.range (xb.numFiniteBuckets + 1)).map
          (fun i : ℕ => GoFloat.finite (xb.scale * xb.growthFactor ^ i)) ++ [GoFloat.posInf]) ∧
      ((List.range (xb.numFiniteBuckets + 1)).map
          (fun i : ℕ => GoFloat.finite (xb.scale * xb.growthFactor ^ i)) ++
        [GoFloat.posInf]).length = xb.numFiniteBuckets + 2) ∧
    (∀ counts, generateHistogramBuckets ⟨⟨none, none, none⟩, counts⟩ = none) ∧
    (∀ dist m, generateHistogramBuckets dist = some m →
      ∃ v, m.getLast? = some (GoFloat.posInf, v)) ∧
    (∀ cfg d st ts newestEnd p dst,
      selectNewest (0, st) ts.points = .ok (newestEnd, some p) →
      ts.valueType = "DISTRIBUTION" →
      (cfg.monitoringDropDelegatedProjects &&
        dropDelegatedProject cfg (assembleLabels d ts)) = false →
      ∀ vt, metricKindToValueType ts.metricKind cfg.aggregateDeltas = some vt →
      p.value.distributionValue = some dst →
      generateHistogramBuckets dst = none →
      processSeries cfg d st ts = .skip (some p)) := by
  refine ⟨?_, ?_, ?_, ?_, ?_, ?_⟩
  · intro eb lb xb
    simp [mkBucketKeys, mkBucketKeysRaw, setLastInf]
  · intro lb xb
    constructor
    · simp [mkBucketKeys, mkBucketKeysRaw, setLastInf]
    · simp only [List.length_append, List.length_map, List.length_range,
        List.length_singleton]
  · intro xb
    constructor
    · simp [mkBucketKeys, mkBucketKeysRaw, setLastInf]
    · simp only [List.length_append, List.length_map, List.length_range,
        List.length_singleton]
  · intro counts
    simp [generateHistogramBuckets, mkBucketKeys, mkBucketKeysRaw]
  · intro dist m hm
    obtain ⟨keys, hk, hwalk⟩ : ∃ keys, mkBucketKeys dist.bucketOptions = some keys ∧
        bucketWalk dist.bucketCounts 0 0 [] keys = m := by
      simpa [generateHistogramBuckets, Option.map_eq_some'] using hm
    obtain ⟨raw, hraw, hkeys⟩ : ∃ raw, mkBucketKeysRaw dist.bucketOptions = some raw ∧
        setLastInf raw = keys := by
      simpa [mkBucketKeys, Option.map_eq_some'] using hk
    have hfin : ∀ b ∈ raw.dropLast, b ≠ GoFloat.posInf := fun b hb =>
      mkBucketKeysRaw_finite _ _ hraw b ((List.dropLast_sublist raw).subset hb)
    have hshape : keys = raw.dropLast ++ [GoFloat.posInf] := by rw [← hkeys]; rfl
    subst hshape
    rw [← hwalk]
    exact bucketWalk_getLast_posInf dist.bucketCounts raw.dropLast 0 0 []
      (by intro q hq; exact absurd hq (List.not_mem_nil q)) hfin
  · intro cfg d st ts newestEnd p dst hsel hvt hflag vt hkind hdist hgen
    simp [processSeries, hsel, hflag, hkind, decodeEmit, hvt, hdist, hgen]

/-- C4 witness: concrete instances — explicit bounds `[1,2]` yield
boundaries `[1,2,+Inf]`; the linear variant with offset 0, width 2 and
3 finite buckets yields `[0,2,4,6,+Inf]` (5 boundaries); a distribution
with no recognized variant yields no buckets and its series is skipped;
a returned bucket map ends in the +infinity bucket. -/
theorem c4_bucket_boundaries_witness :
    mkBucketKeys ⟨some ⟨[1, 2]⟩, none, none⟩ =
      some [.finite 1, .finite 2, .posInf] ∧
    (mkBucketKeys c4DistLinear.bucketOptions =
      some [.finite 0, .finite 2, .finite 4, .finite 6, .posInf] ∧
      (mkBucketKeys c4DistLinear.bucketOptions).map List.length = some 5) ∧
    generateHistogramBuckets c4DistUnknown = none ∧
    (generateHistogramBuckets c4DistExpl = some [(.finite 5, 1), (.posInf, 3)] ∧
      ∃ v, ([(.finite 5, 1), (.posInf, 3)] : GoMap).getLast? = some (.posInf, v)) ∧
    processSeries cfgPlain descPlain none c4SeriesUnknown =
      .skip (some ⟨⟨.valid 4⟩, ⟨none, none, none, some c4DistUnknown⟩⟩) := by
  refine ⟨?_, ⟨?_, ?_⟩, c4_bucket_boundaries.2.2.2.1 [1], ⟨rfl, ?_⟩, ?_⟩
  · have h := c4_bucket_boundaries.1 ⟨[1, 2]⟩ none none
    rw [h]
    rfl
  · simp only [c4DistLinear, mkBucketKeys, mkBucketKeysRaw, setLastInf, List.range_succ]
    norm_num
    rfl
  · have h := (c4_bucket_boundaries.2.1 ⟨3, 2, 0⟩ none).1
    have h2 := (c4_bucket_boundaries.2.1 ⟨3, 2, 0⟩ none).2
    show (mkBucketKeys ⟨none, some ⟨3, 2, 0⟩, none⟩).map List.length = some 5
    rw [h, Option.map_some', h2]
  · exact c4_bucket_boundaries.2.2.2.2.1 c4DistExpl _ rfl
  · exact c4_bucket_boundaries.2.2.2.2.2 cfgPlain descPlain none c4SeriesUnknown 4
      ⟨⟨.valid 4⟩, ⟨none, none, none, some c4DistUnknown⟩⟩ c4DistUnknown rfl rfl (by decide)
      .gaugeValue rfl rfl rfl

/-- C7: the metric-kind switch maps GAUGE to gauge, CUMULATIVE to
counter, DELTA to counter when aggregate-deltas is enabled and to gauge
when disabled, and any other metric-kind string yields no exposition
kind, in which case the series is skipped (a `continue`), not failed. -/
theorem c7_metric_kind_mapping :
    (∀ a, metricKindToValueType "GAUGE" a = some .gaugeValue) ∧
    (∀ a, metricKindToValueType "CUMULATIVE" a = some .counterValue) ∧
    metricKindToValueType "DELTA" true = some .counterValue ∧
    metricKindToValueType "DELTA" false = some .gaugeValue ∧
    (∀ k a, k ≠ "GAUGE" → k ≠ "DELTA" → k ≠ "CUMULATIVE" →
      metricKindToValueType k a = none) ∧
    (∀ cfg d st ts newestEnd newest,
      selectNewest (0, st) ts.points = .ok (newestEnd, newest) →
      metricKindToValueType ts.metricKind cfg.aggregateDeltas = none →
      processSeries cfg d st ts = .skip newest) := by
  refine ⟨by decide, by decide, by decide, by decide, ?_, ?_⟩
  · intro k a h1 h2 h3
    simp [metricKindToValueType, h1, h2, h3]
  · intro cfg d st ts newestEnd newest hsel hkind
    simp [processSeries, hsel, hkind]

/-- C7 witness: the unrecognized kind `FOO` maps to no exposition kind
and the owning series is skipped with the unit still succeeding. -/
theorem c7_metric_kind_mapping_witness :
    metricKindToValueType "FOO" true = none ∧
    processSeries cfgPlain descPlain none c7SeriesOther
      = .skip (some ⟨⟨.valid 4⟩, tvOfInt 9⟩) := by
  refine ⟨c7_metric_kind_mapping.2.2.2.2.1 "FOO" true (by decide) (by decide) (by decide), ?_⟩
  exact c7_metric_kind_mapping.2.2.2.2.2 cfgPlain descPlain none c7SeriesOther 4
    (some ⟨⟨.valid 4⟩, tvOfInt 9⟩) rfl (by decide)

/-- `keyExists` decides list membership. -/
theorem keyExists_iff_mem (l : List String) (k : String) :
    keyExists l k = true ↔ k ∈ l := by
  constructor
  · intro h
    obtain ⟨x, hx, he⟩ := List.any_eq_true.mp h
    rwa [← beq_iff_eq.mp he]
  · intro h
    exact List.any_eq_true.mpr ⟨k, h, beq_self_eq_true k⟩

/-- A lookup in an appended list resolves in the left part first. -/
theorem lookup_append (l1 l2 : List (String × String)) (k : String) :
    (l1 ++ l2).lookup k =
      match l1.lookup k with
      | some v => some v
      | none => l2.lookup k := by
  induction l1 with
  | nil => simp [List.lookup]
  | cons p t ih =>
    obtain ⟨pk, pv⟩ := p
    by_cases h : k = pk
    · simp [List.lookup, h]
    · have hb : (k == pk) = false := by simp [h]
      simp [List.lookup, hb, ih]

/-- A lookup is defined exactly when `keyExists` holds of the keys. -/
theorem lookup_isSome_eq_keyExists (l : List (String × String)) (k : String) :
    (l.lookup k).isSome = keyExists (l.map Prod.fst) k := by
  induction l with
  | nil => simp [List.lookup, keyExists]
  | cons p t ih =>
    obtain ⟨pk, pv⟩ := p
    by_cases h : k = pk
    · subst h
      simp [List.lookup, keyExists]
    · have hb : (k == pk) = false := by simp [h]
      have hb2 : (pk == k) = false := by simp [Ne.symm h]
      simp [List.lookup, keyExists, hb, hb2, ih]

/-- The label fold only appends: the accumulator stays a prefix. -/
theorem foldl_addIfAbsent_prefix (xs : List (String × String)) :
    ∀ acc : List (String × String), ∃ tail, xs.foldl addIfAbsent acc = acc ++ tail := by
  induction xs with
  | nil => intro acc; exact ⟨[], by simp⟩
  | cons x t ih =>
    intro acc
    rw [List.foldl_cons]
    by_cases h : keyExists (acc.map Prod.fst) x.1 = true
    · have hx : addIfAbsent acc x = acc := by simp [addIfAbsent, h]
      rw [hx]
      exact ih acc
    · have hx : addIfAbsent acc x = acc ++ [x] := by
        simp only [addIfAbsent, h]
        simp
      rw [hx]
      obtain ⟨s, hs⟩ := ih (acc ++ [x])
      exact ⟨[x] ++ s, by rw [hs, List.append_assoc]⟩

/-- Lookups through the label fold: keys of the accumulator keep their
values, and a new key receives its first occurrence in the folded
list. -/
theorem foldl_addIfAbsent_lookup (xs : List (String × String)) :
    ∀ (acc : List (String × String)) (k : String),
      (xs.foldl addIfAbsent acc).lookup k = (acc ++ xs).lookup k := by
  induction xs with
  | nil => intro acc k; simp
  | cons x t ih =>
    intro acc k
    rw [List.foldl_cons]
    by_cases h : keyExists (acc.map Prod.fst) x.1 = true
    · have hx : addIfAbsent acc x = acc := by simp [addIfAbsent, h]
      rw [hx, ih, lookup_append, lookup_append]
      match hacc : acc.lookup k with
      | some v => rfl
      | none =>
        have hke : keyExists (acc.map Prod.fst) k = false := by
          rw [← lookup_isSome_eq_keyExists, hacc]
          rfl
        have hkx : k ≠ x.1 := by
          intro he
          rw [he, h] at hke
          exact absurd hke (by simp)
        have hb : (k == x.1) = false := by simp [hkx]
        obtain ⟨xk, xv⟩ := x
        simp only [List.lookup, hb]
    · have hx : addIfAbsent acc x = acc ++ [x] := by
        simp only [addIfAbsent, h]
        simp
      rw [hx, ih, List.append_assoc]
      rfl

/-- The label fold keeps the keys duplicate-free. -/
theorem foldl_addIfAbsent_nodup (xs : List (String × String)) :
    ∀ acc : List (String × String), ((acc.map Prod.fst)).Nodup →
      ((xs.foldl addIfAbsent acc).map Prod.fst).Nodup := by
  induction xs with
  | nil => intro acc h; simpa using h
  | cons x t ih =>
    intro acc h
    rw [List.foldl_cons]
    apply ih
    by_cases hk : keyExists (acc.map Prod.fst) x.1 = true
    · have hx : addIfAbsent acc x = acc := by simp [addIfAbsent, hk]
      rwa [hx]
    · have hx : addIfAbsent acc x = acc ++ [x] := by
        simp only [addIfAbsent, hk]
        simp
      rw [hx]
      have hmem : x.1 ∉ acc.map Prod.fst := fun hm => hk ((keyExists_iff_mem _ _).mpr hm)
      simp [List.nodup_append, h, hmem]

/-- The label fold is exactly: keep the accumulator and append the
group's new-key pairs in group order. -/
theorem foldl_addIfAbsent_eq_newLabels (xs : List (String × String)) :
    ∀ acc, xs.foldl addIfAbsent acc = acc ++ newLabels acc xs := by
  induction xs with
  | nil => intro acc; simp [newLabels]
  | cons x t ih =>
    intro acc
    rw [List.foldl_cons]
    by_cases h : keyExists (acc.map Prod.fst) x.1 = true
    · have hx : addIfAbsent acc x = acc := by simp [addIfAbsent, h]
      rw [hx, ih acc]
      simp [newLabels, h]
    · have hx : addIfAbsent acc x = acc ++ [x] := by
        simp only [addIfAbsent, h]
        simp
      rw [hx, ih (acc ++ [x])]
      simp [newLabels, h, List.append_assoc]

/-- The new-key pairs of a group form a sublist of that group: the
assembled list interleaves nothing into a group and reorders nothing. -/
theorem newLabels_sublist (xs : List (String × String)) :
    ∀ acc, (newLabels acc xs).Sublist xs := by
  induction xs with
  | nil => intro acc; simp [newLabels]
  | cons x t ih =>
    intro acc
    by_cases h : keyExists (acc.map Prod.fst) x.1 = true
    · have hx : newLabels acc (x :: t) = newLabels acc t := by simp [newLabels, h]
      rw [hx]
      exact (ih acc).trans (List.sublist_cons_self x t)
    · have hx : newLabels acc (x :: t) = x :: newLabels (acc ++ [x]) t := by
        simp [newLabels, h]
      rw [hx]
      exact List.Sublist.cons₂ x (ih (acc ++ [x]))

/-- The three label groups are folded in source order; the system-label
group is empty when metadata is absent or undecodable. -/
theorem assembleLabels_eq (d : MetricDescriptor) (ts : TimeSeries) :
    assembleLabels d ts =
      (sysLabelList ts).foldl addIfAbsent
        (ts.resourceLabels.foldl addIfAbsent
          (ts.metricLabels.foldl addIfAbsent [("unit", d.unit)])) := by
  unfold assembleLabels sysLabelList
  rcases ts with ⟨ml, rl, sys, mk, vt, pts⟩
  rcases sys with _ | sys
  · rfl
  · rcases sys with l | _ <;> rfl

/-- The seed is a lower bound of the running maximum. -/
theorem le_maxEndFrom (pts : List Point) : ∀ nt : ℤ, nt ≤ maxEndFrom nt pts := by
  induction pts with
  | nil => intro nt; simp [maxEndFrom]
  | cons p t ih =>
    intro nt
    calc nt ≤ max nt (endD p) := le_max_left _ _
    _ ≤ maxEndFrom (max nt (endD p)) t := ih _
    _ = maxEndFrom nt (p :: t) := rfl

/-- Every end time is bounded by the running maximum. -/
theorem endD_le_maxEndFrom (pts : List Point) :
    ∀ (nt : ℤ), ∀ q ∈ pts, endD q ≤ maxEndFrom nt pts := by
  induction pts with
  | nil => intro nt q hq; exact absurd hq (List.not_mem_nil q)
  | cons p t ih =>
    intro nt q hq
    rcases List.mem_cons.mp hq with rfl | hq
    · calc endD q ≤ max nt (endD q) := le_max_right _ _
      _ ≤ maxEndFrom (max nt (endD q)) t := le_maxEndFrom _ _
      _ = maxEndFrom nt (q :: t) := rfl
    · exact ih (max nt (endD p)) q hq

/-- A running maximum strictly above its seed is attained by a point. -/
theorem maxEndFrom_attained (pts : List Point) :
    ∀ nt : ℤ, nt < maxEndFrom nt pts → ∃ p ∈ pts, endD p = maxEndFrom nt pts := by
  induction pts with
  | nil => intro nt h; simp [maxEndFrom] at h
  | cons p t ih =>
    intro nt h
    have hM : maxEndFrom nt (p :: t) = maxEndFrom (max nt (endD p)) t := rfl
    by_cases hc : max nt (endD p) < maxEndFrom (max nt (endD p)) t
    · obtain ⟨q, hq, he⟩ := ih (max nt (endD p)) hc
      exact ⟨q, List.mem_cons_of_mem _ hq, by rw [hM]; exact he⟩
    · have hle := le_maxEndFrom t (max nt (endD p))
      have heq : maxEndFrom (max nt (endD p)) t = max nt (endD p) :=
        le_antisymm (not_lt.mp hc) hle
      rcases le_or_lt (endD p) nt with hpn | hnp
      · rw [hM, heq, max_eq_left hpn] at h
        exact absurd h (lt_irrefl nt)
      · refine ⟨p, List.mem_cons_self p t, ?_⟩
        rw [hM, heq, max_eq_right (le_of_lt hnp)]

/-- The newest-point selection loop, characterized: with all end times
parsing, it returns the running maximum of the end times (seeded with
the incoming `newestEndTime`), and selects the first point whose end
attains it when that maximum beats the seed; otherwise the incoming
`newestTSPoint` survives. -/
theorem selectNewest_spec (pts : List Point) :
    ∀ (nt : ℤ) (np : Option Point), (∀ p ∈ pts, p.interval.endTime ≠ .malformed) →
      selectNewest (nt, np) pts =
        .ok (maxEndFrom nt pts,
          if nt < maxEndFrom nt pts then
            pts.find? (fun p => endD p == maxEndFrom nt pts)
          else np) := by
  induction pts with
  | nil =>
    intro nt np _
    simp [selectNewest, maxEndFrom]
  | cons p t ih =>
    intro nt np hv
    have hp : p.interval.endTime ≠ .malformed := hv p (List.mem_cons_self p t)
    have hparse : parseRFC3339 p.interval.endTime = some (endD p) := by
      rcases he : p.interval.endTime with t' | _
      · simp [parseRFC3339, endD, he]
      · exact absurd he hp
    have hvt : ∀ q ∈ t, q.interval.endTime ≠ .malformed := fun q hq =>
      hv q (List.mem_cons_of_mem _ hq)
    have hM : maxEndFrom nt (p :: t) = maxEndFrom (max nt (endD p)) t := rfl
    simp only [selectNewest, hparse]
    by_cases hlt : nt < endD p
    · rw [if_pos hlt, ih (endD p) (some p) hvt, hM, max_eq_right (le_of_lt hlt)]
      by_cases hc : endD p < maxEndFrom (endD p) t
      · have hnt : nt < maxEndFrom (endD p) t := lt_trans hlt hc
        rw [if_pos hc, if_pos hnt]
        have hne : ¬ ((fun q => endD q == maxEndFrom (endD p) t) p = true) := by
          simp [ne_of_lt hc]
        have hfind : (p :: t).find? (fun q => endD q == maxEndFrom (endD p) t) =
            t.find? (fun q => endD q == maxEndFrom (endD p) t) :=
          List.find?_cons_of_neg t hne
        rw [hfind]
      · have heq : maxEndFrom (endD p) t = endD p :=
          le_antisymm (not_lt.mp hc) (le_maxEndFrom t (endD p))
        rw [heq, if_neg (lt_irrefl (endD p)), if_pos hlt]
        have hpos : (fun q => endD q == endD p) p = true := by simp
        have hfind : (p :: t).find? (fun q => endD q == endD p) = some p :=
          List.find?_cons_of_pos t hpos
        rw [hfind]
    · rw [if_neg hlt, ih nt np hvt, hM, max_eq_left (not_lt.mp hlt)]
      by_cases hc : nt < maxEndFrom nt t
      · rw [if_pos hc, if_pos hc]
        have hne : ¬ ((fun q => endD q == maxEndFrom nt t) p = true) := by
          have hlt2 : endD p < maxEndFrom nt t := lt_of_le_of_lt (not_lt.mp hlt) hc
          simp [ne_of_lt hlt2]
        have hfind : (p :: t).find? (fun q => endD q == maxEndFrom nt t) =
            t.find? (fun q => endD q == maxEndFrom nt t) :=
          List.find?_cons_of_neg t hne
        rw [hfind]
      · rw [if_neg hc, if_neg hc]

/-- When the per-series decode and emission step emits a sample, the
sample was built from the currently selected point: the shared state is
that point, the timestamp is the selected end time and the payload is
the decoded value of that point. -/
theorem decodeEmit_emit_inv (ts : TimeSeries) (labels : List (String × String))
    (vt : PValType) (tEnd : ℤ) (p : Point) (s : Sample) (st' : Option Point)
    (h : decodeEmit ts labels vt tEnd (some p) = .emit s st') :
    st' = some p ∧ sampleTime s = tEnd ∧ sampleFromPoint ts.valueType p s := by
  by_cases hB : (ts.valueType == "BOOL") = true
  · have hs : ts.valueType = "BOOL" := beq_iff_eq.mp hB
    simp only [decodeEmit, hB, if_true] at h
    rcases hbv : p.value.boolValue with _ | b
    · rw [hbv] at h; cases h
    · rw [hbv] at h
      cases h
      exact ⟨rfl, rfl, by simp [sampleFromPoint, scalarDecode, hs, hbv]⟩
  · by_cases hI : (ts.valueType == "INT64") = true
    · have hs : ts.valueType = "INT64" := beq_iff_eq.mp hI
      simp only [decodeEmit, hB, hI, if_true, Bool.false_eq_true, if_false] at h
      rcases hiv : p.value.int64Value with _ | z
      · rw [hiv] at h; cases h
      · rw [hiv] at h
        cases h
        refine ⟨rfl, rfl, ?_⟩
        have : ts.valueType ≠ "BOOL" := by
          intro he; rw [he] at hB; exact hB rfl
        simp [sampleFromPoint, scalarDecode, hs, hiv]
    · by_cases hD : (ts.valueType == "DOUBLE") = true
      · have hs : ts.valueType = "DOUBLE" := beq_iff_eq.mp hD
        simp only [decodeEmit, hB, hI, hD, if_true, Bool.false_eq_true, if_false] at h
        rcases hdv : p.value.doubleValue with _ | q
        · rw [hdv] at h; cases h
        · rw [hdv] at h
          cases h
          refine ⟨rfl, rfl, ?_⟩
          simp [sampleFromPoint, scalarDecode, hs, hdv]
      · by_cases hH : (ts.valueType == "DISTRIBUTION") = true
        · simp only [decodeEmit, hB, hI, hD, hH, if_true, Bool.false_eq_true, if_false] at h
          rcases hdv : p.value.distributionValue with _ | dist
          · rw [hdv] at h; cases h
          · simp only [hdv] at h
            rcases hg : generateHistogramBuckets dist with _ | buckets
            · simp only [hg] at h; cases h
            · simp only [hg] at h
              cases h
              exact ⟨rfl, rfl, by simp [sampleFromPoint, hdv, hg]⟩
        · simp only [decodeEmit, hB, hI, hD, hH, Bool.false_eq_true, if_false] at h
          cases h

/-- C5 counterexample: the claim as stated promises that a series with
one point (end at the Unix epoch `1970-01-01T00:00:00Z`, which parses,
value 5) exposes the value 5.  The code's selection loop seeds its
running maximum with `time.Unix(0,0)` and only a strictly later point
replaces `newestTSPoint`, so no point is selected and the nil pointer is
dereferenced: the page panics and exposes nothing. -/
theorem c5_counterexample_epoch_end :
    processPage cfgPlain descPlain ⟨[c5SeriesEpoch], ""⟩ = ([], .panicked) := rfl

/-- C5 (amended): for a series with a non-empty Points list whose end
times all parse and whose latest end is strictly after the Unix epoch,
the selection loop picks the first point attaining the latest end
(hence value selection is independent of the order of the remaining
points), and any sample the series emits carries that point's decoded
value and timestamp. -/
theorem c5_latest_point_wins (cfg : CollectorConfig) (d : MetricDescriptor)
    (st : Option Point) (ts : TimeSeries)
    (hne : ts.points ≠ [])
    (hv : ∀ p ∈ ts.points, p.interval.endTime ≠ .malformed)
    (hpos : 0 < maxEndFrom 0 ts.points) :
    ∃ p0, ts.points.find? (fun p => endD p == maxEndFrom 0 ts.points) = some p0 ∧
      endD p0 = maxEndFrom 0 ts.points ∧
      p0 ∈ ts.points ∧
      (∀ q ∈ ts.points, endD q ≤ endD p0) ∧
      selectNewest (0, st) ts.points = .ok (endD p0, some p0) ∧
      (∀ s st', processSeries cfg d st ts = .emit s st' →
        st' = some p0 ∧ sampleTime s = endD p0 ∧ sampleFromPoint ts.valueType p0 s) := by
  obtain ⟨q, hq, he⟩ := maxEndFrom_attained ts.points 0 hpos
  have hfs : (ts.points.find? (fun p => endD p == maxEndFrom 0 ts.points)).isSome := by
    rw [List.find?_isSome]
    exact ⟨q, hq, by simp [he]⟩
  obtain ⟨p0, hp0⟩ := Option.isSome_iff_exists.mp hfs
  have he0 : endD p0 = maxEndFrom 0 ts.points := by
    have := List.find?_some hp0
    exact beq_iff_eq.mp this
  have hmem : p0 ∈ ts.points := List.mem_of_find?_eq_some hp0
  have hsel : selectNewest (0, st) ts.points = .ok (endD p0, some p0) := by
    rw [selectNewest_spec ts.points 0 st hv, if_pos hpos, hp0, he0]
  refine ⟨p0, hp0, he0, hmem, ?_, hsel, ?_⟩
  · intro r hr
    rw [he0]
    exact endD_le_maxEndFrom ts.points 0 r hr
  · intro s st' hemit
    simp only [processSeries, hsel] at hemit
    by_cases hdrop : (cfg.monitoringDropDelegatedProjects &&
        dropDelegatedProject cfg (assembleLabels d ts)) = true
    · rw [if_pos hdrop] at hemit
      cases hemit
    · rw [if_neg hdrop] at hemit
      rcases hk : metricKindToValueType ts.metricKind cfg.aggregateDeltas with _ | vt
      · rw [hk] at hemit
        cases hemit
      · rw [hk] at hemit
        exact decodeEmit_emit_inv ts (assembleLabels d ts) vt (endD p0) p0 s st' hemit

/-- C5 witness: the spec's example — points with ends 1, 3, 2 and
values 1, 3, 2 — selects the point with end 3, and the emitted sample
carries value 3. -/
theorem c5_latest_point_wins_witness :
    (∃ p0, c5Series.points.find?
        (fun p => endD p == maxEndFrom 0 c5Series.points) = some p0 ∧
      endD p0 = maxEndFrom 0 c5Series.points ∧
      p0 ∈ c5Series.points ∧
      (∀ q ∈ c5Series.points, endD q ≤ endD p0) ∧
      selectNewest (0, none) c5Series.points = .ok (endD p0, some p0) ∧
      (∀ s st', processSeries cfgPlain descPlain none c5Series = .emit s st' →
        st' = some p0 ∧ sampleTime s = endD p0 ∧
          sampleFromPoint c5Series.valueType p0 s)) ∧
    processSeries cfgPlain descPlain none c5Series =
      .emit (.scalarS [("unit", "By")] 3 .gaugeValue 3 "GAUGE")
        (some ⟨⟨.valid 3⟩, tvOfInt 3⟩) := by
  constructor
  · refine c5_latest_point_wins cfgPlain descPlain none c5Series (by decide) ?_ (by decide)
    intro p hp
    fin_cases hp <;> decide
  · rfl

/-- C6: the assembled label list starts with the reserved `unit` key
carrying the descriptor's unit; its keys are duplicate-free; the value
of every key is the first-seen one in the order `unit`, metric labels,
resource labels, decoded system labels (later duplicates dropped); and
positionally the list is exactly the `unit` pair followed by the
surviving metric-label pairs, then the surviving resource-label pairs,
then the surviving system-label pairs, each group a sublist of its
source group. -/
theorem c6_label_assembly (d : MetricDescriptor) (ts : TimeSeries) :
    (assembleLabels d ts).head? = some ("unit", d.unit) ∧
    ((assembleLabels d ts).map Prod.fst).Nodup ∧
    (∀ k, (assembleLabels d ts).lookup k =
      (("unit", d.unit) ::
        (ts.metricLabels ++ ts.resourceLabels ++ sysLabelList ts)).lookup k) ∧
    (∃ metricPart resourcePart sysPart,
      assembleLabels d ts =
        ("unit", d.unit) :: (metricPart ++ resourcePart ++ sysPart) ∧
      metricPart.Sublist ts.metricLabels ∧
      resourcePart.Sublist ts.resourceLabels ∧
      sysPart.Sublist (sysLabelList ts)) := by
  rw [assembleLabels_eq]
  refine ⟨?_, ?_, ?_, ?_⟩
  · obtain ⟨s1, hs1⟩ := foldl_addIfAbsent_prefix ts.metricLabels [("unit", d.unit)]
    obtain ⟨s2, hs2⟩ := foldl_addIfAbsent_prefix ts.resourceLabels
      (ts.metricLabels.foldl addIfAbsent [("unit", d.unit)])
    obtain ⟨s3, hs3⟩ := foldl_addIfAbsent_prefix (sysLabelList ts)
      (ts.resourceLabels.foldl addIfAbsent
        (ts.metricLabels.foldl addIfAbsent [("unit", d.unit)]))
    rw [hs3, hs2, hs1]
    simp
  · apply foldl_addIfAbsent_nodup
    apply foldl_addIfAbsent_nodup
    apply foldl_addIfAbsent_nodup
    simp
  · intro k
    have e1 : (ts.metricLabels.foldl addIfAbsent [("unit", d.unit)]).lookup k =
        ([("unit", d.unit)] ++ ts.metricLabels).lookup k :=
      foldl_addIfAbsent_lookup _ _ _
    have e2 : (ts.resourceLabels.foldl addIfAbsent
        (ts.metricLabels.foldl addIfAbsent [("unit", d.unit)])).lookup k =
        (([("unit", d.unit)] ++ ts.metricLabels) ++ ts.resourceLabels).lookup k := by
      rw [foldl_addIfAbsent_lookup, lookup_append, e1, ← lookup_append]
    have e3 : ((sysLabelList ts).foldl addIfAbsent
        (ts.resourceLabels.foldl addIfAbsent
          (ts.metricLabels.foldl addIfAbsent [("unit", d.unit)]))).lookup k =
        ((([("unit", d.unit)] ++ ts.metricLabels) ++ ts.resourceLabels) ++
          sysLabelList ts).lookup k := by
      rw [foldl_addIfAbsent_lookup, lookup_append, e2, ← lookup_append]
    rw [e3]
    have hlist : (([("unit", d.unit)] ++ ts.metricLabels) ++ ts.resourceLabels) ++
        sysLabelList ts =
        ("unit", d.unit) :: (ts.metricLabels ++ ts.resourceLabels ++ sysLabelList ts) := by
      simp [List.append_assoc]
    rw [hlist]
  · refine ⟨newLabels [("unit", d.unit)] ts.metricLabels,
      newLabels (ts.metricLabels.foldl addIfAbsent [("unit", d.unit)]) ts.resourceLabels,
      newLabels (ts.resourceLabels.foldl addIfAbsent
        (ts.metricLabels.foldl addIfAbsent [("unit", d.unit)])) (sysLabelList ts),
      ?_, newLabels_sublist _ _, newLabels_sublist _ _, newLabels_sublist _ _⟩
    rw [foldl_addIfAbsent_eq_newLabels (sysLabelList ts)]
    rw [foldl_addIfAbsent_eq_newLabels ts.resourceLabels]
    rw [foldl_addIfAbsent_eq_newLabels ts.metricLabels]
    simp [List.append_assoc]

/-- Folding the units under the fixed schedule: when no unit crashes,
the accumulated samples extend with every unit's samples in order and
the error buffer extends with every unit's error in order. -/
theorem foldl_unitStep_spec (cfg : CollectorConfig) (base : ℤ × ℤ)
    (api : String → List ApiResp) :
    ∀ (us : List MetricDescriptor) (s0 : List Sample) (e0 : List Err),
      (∀ d ∈ us, runUnit cfg base api d ≠ .crashed) →
      us.foldl (unitStep cfg base api) (some (s0, e0)) =
        some (s0 ++ ((us.map (runUnit cfg base api)).map UnitOut.samplesOf).flatten,
          e0 ++ (us.map (runUnit cfg base api)).filterMap UnitOut.errOf) := by
  intro us
  induction us with
  | nil => intro s0 e0 _; simp
  | cons d t ih =>
    intro s0 e0 hnc
    rw [List.foldl_cons]
    rcases hu : runUnit cfg base api d with _ | ⟨s, e⟩
    · exact absurd hu (hnc d (List.mem_cons_self d t))
    · have hstep : unitStep cfg base api (some (s0, e0)) d =
          some (s0 ++ s, e0 ++ e.toList) := by
        simp [unitStep, hu]
      rw [hstep, ih (s0 ++ s) (e0 ++ e.toList)
        (fun q hq => hnc q (List.mem_cons_of_mem _ hq))]
      rcases e with _ | er <;>
        simp [hu, UnitOut.samplesOf, UnitOut.errOf, List.append_assoc]

/-- Folding the prefix units under the fixed schedule: when no prefix
unit crashes, the accumulated samples extend with every prefix unit's
samples in order and the scrape-level error buffer extends with every
prefix unit's error in order. -/
theorem foldl_prefixStep_spec (cfg : CollectorConfig) (base : ℤ × ℤ) (env : ScrapeEnv) :
    ∀ (pfxs : List String) (s0 : List Sample) (e0 : List Err),
      (∀ p ∈ pfxs, runPrefixUnit cfg base env p ≠ none) →
      pfxs.foldl (prefixStep cfg base env) (some (s0, e0)) =
        some (s0 ++ ((pfxs.map (runPrefixUnit cfg base env)).map prefixSamplesOf).flatten,
          e0 ++ (pfxs.map (runPrefixUnit cfg base env)).filterMap prefixErrOf) := by
  intro pfxs
  induction pfxs with
  | nil => intro s0 e0 _; simp
  | cons p t ih =>
    intro s0 e0 hnc
    rw [List.foldl_cons]
    rcases hu : runPrefixUnit cfg base env p with _ | ⟨s, e⟩
    · exact absurd hu (hnc p (List.mem_cons_self p t))
    · have hstep : prefixStep cfg base env (some (s0, e0)) p =
          some (s0 ++ s, e0 ++ e.toList) := by
        simp [prefixStep, hu]
      rw [hstep, ih (s0 ++ s) (e0 ++ e.toList)
        (fun q hq => hnc q (List.mem_cons_of_mem _ hq))]
      rcases e with _ | er <;>
        simp [hu, prefixSamplesOf, prefixErrOf, List.append_assoc]

/-- C8: under the fixed schedule, at both fan-out levels, when no unit
panics the scrape waits for every unit and runs each to completion.
Descriptor level (one `metricDescriptorsFunction` call): the emitted
samples are the concatenation of all descriptor units' samples (a
failing sibling cancels nothing), the closed channel buffers every
unit's error in schedule order, and the call's returned error is the
first buffered one — none when the buffer is empty.  Prefix level (the
whole scrape): the same holds for the prefix units, and the scrape's
terminal error is exactly the first error buffered in the closed
scrape-level channel — none when that channel is empty. -/
theorem c8_error_collection :
    (∀ (cfg : CollectorConfig) (base : ℤ × ℤ) (api : String → List ApiResp)
        (ds : List MetricDescriptor),
      (∀ d ∈ uniqueDescriptors ds, runUnit cfg base api d ≠ .crashed) →
      runDescriptors cfg base api ds =
        some ((((uniqueDescriptors ds).map (runUnit cfg base api)).map
            UnitOut.samplesOf).flatten,
          ((uniqueDescriptors ds).map (runUnit cfg base api)).filterMap UnitOut.errOf) ∧
      (runDescriptors cfg base api ds).map (fun r => firstBufferedErr r.2) =
        some ((((uniqueDescriptors ds).map (runUnit cfg base api)).filterMap
          UnitOut.errOf).head?) ∧
      (firstBufferedErr (((uniqueDescriptors ds).map (runUnit cfg base api)).filterMap
          UnitOut.errOf) = none ↔
        ∀ u ∈ (uniqueDescriptors ds).map (runUnit cfg base api), u.errOf = none)) ∧
    (∀ (cfg : CollectorConfig) (base : ℤ × ℤ) (env : ScrapeEnv) (pfxs : List String),
      (∀ p ∈ pfxs, runPrefixUnit cfg base env p ≠ none) →
      reportMonitoringMetrics cfg base env pfxs =
        some (((pfxs.map (runPrefixUnit cfg base env)).map prefixSamplesOf).flatten,
          (pfxs.map (runPrefixUnit cfg base env)).filterMap prefixErrOf) ∧
      scrapeTerminalErr (reportMonitoringMetrics cfg base env pfxs) =
        some (((pfxs.map (runPrefixUnit cfg base env)).filterMap prefixErrOf).head?) ∧
      (firstBufferedErr ((pfxs.map (runPrefixUnit cfg base env)).filterMap prefixErrOf)
          = none ↔
        ∀ r ∈ pfxs.map (runPrefixUnit cfg base env), prefixErrOf r = none)) := by
  constructor
  · intro cfg base api ds hnc
    have h1 : runDescriptors cfg base api ds =
        some ((((uniqueDescriptors ds).map (runUnit cfg base api)).map
            UnitOut.samplesOf).flatten,
          ((uniqueDescriptors ds).map (runUnit cfg base api)).filterMap UnitOut.errOf) := by
      unfold runDescriptors
      rw [foldl_unitStep_spec cfg base api (uniqueDescriptors ds) [] [] hnc]
      simp
    refine ⟨h1, ?_, ?_⟩
    · rw [h1]
      rfl
    · unfold firstBufferedErr
      rw [List.head?_eq_none_iff, List.filterMap_eq_nil_iff]
  · intro cfg base env pfxs hnc
    have h1 : reportMonitoringMetrics cfg base env pfxs =
        some (((pfxs.map (runPrefixUnit cfg base env)).map prefixSamplesOf).flatten,
          (pfxs.map (runPrefixUnit cfg base env)).filterMap prefixErrOf) := by
      unfold reportMonitoringMetrics
      rw [foldl_prefixStep_spec cfg base env pfxs [] [] hnc]
      simp
    refine ⟨h1, ?_, ?_⟩
    · unfold scrapeTerminalErr
      rw [h1]
      rfl
    · unfold firstBufferedErr
      rw [List.head?_eq_none_iff, List.filterMap_eq_nil_iff]

/-- C8 witness: a scrape with two prefixes — the first hitting the cache
and its only descriptor unit failing with a transport error, the second
missing the cache with one listing page whose descriptor unit succeeds.
Both levels run everything to completion: the succeeding unit's sample
is exposed alongside the failure, and the scrape's terminal error is the
first (only) buffered one. -/
theorem c8_error_collection_witness :
    runDescriptors cfgPlain (0, 0) c8Api [c8DescBad, c8DescOk] =
      some ([c8GoodSample], [.api 1]) ∧
    reportMonitoringMetrics cfgPlain (0, 0) c8Env ["pfx1", "pfx2"] =
      some ([c8GoodSample], [.api 1]) ∧
    scrapeTerminalErr (reportMonitoringMetrics cfgPlain (0, 0) c8Env ["pfx1", "pfx2"]) =
      some (some (.api 1)) := by
  have hd := c8_error_collection.1 cfgPlain (0, 0) c8Api [c8DescBad, c8DescOk] (by decide)
  have hp := c8_error_collection.2 cfgPlain (0, 0) c8Env ["pfx1", "pfx2"] (by decide)
  refine ⟨?_, ?_, ?_⟩
  · rw [hd.1]
    rfl
  · rw [hp.1]
    rfl
  · rw [hp.2.1]
    rfl

/-- A key absent from the unique descriptor types is absent from the
issued fetches. -/
theorem issuedFetches_lookup_absent (cfg : CollectorConfig) (base : ℤ × ℤ) :
    ∀ (us : List MetricDescriptor) (k : String),
      k ∉ us.map MetricDescriptor.typeStr →
      (us.filterMap (fun e => ((windowFor cfg base e).toOption).map
        (fun w => (e.typeStr, w)))).lookup k = none := by
  intro us
  induction us with
  | nil => intro k _; rfl
  | cons e t ih =>
    intro k hk
    have hke : k ≠ e.typeStr := fun h => hk (by simp [h])
    have hkt : k ∉ t.map MetricDescriptor.typeStr := fun h => hk (by simp [h])
    rcases hw : (windowFor cfg base e).toOption with _ | w
    · simp only [List.filterMap_cons, hw, Option.map_none']
      exact ih k hkt
    · simp only [List.filterMap_cons, hw, Option.map_some']
      have hb : (k == e.typeStr) = false := by simp [hke]
      simp only [List.lookup, hb]
      exact ih k hkt

/-- Looking up a descriptor's type among the issued fetches yields
exactly that descriptor's own window computation, untouched by the other
descriptors in the list. -/
theorem issuedFetches_lookup (cfg : CollectorConfig) (base : ℤ × ℤ) :
    ∀ us : List MetricDescriptor, (us.map MetricDescriptor.typeStr).Nodup →
      ∀ d ∈ us,
        (us.filterMap (fun e => ((windowFor cfg base e).toOption).map
          (fun w => (e.typeStr, w)))).lookup d.typeStr =
        (windowFor cfg base d).toOption := by
  intro us
  induction us with
  | nil => intro _ d hd; exact absurd hd (List.not_mem_nil d)
  | cons e t ih =>
    intro hnd d hd
    have hhead : e.typeStr ∉ t.map MetricDescriptor.typeStr := (List.nodup_cons.mp hnd).1
    have htail : (t.map MetricDescriptor.typeStr).Nodup := (List.nodup_cons.mp hnd).2
    rcases List.mem_cons.mp hd with rfl | hd
    · rcases hw : (windowFor cfg base d).toOption with _ | w
      · simp only [List.filterMap_cons, hw, Option.map_none']
        exact issuedFetches_lookup_absent cfg base t d.typeStr hhead
      · simp only [List.filterMap_cons, hw, Option.map_some']
        simp [List.lookup]
    · have hne : d.typeStr ≠ e.typeStr := by
        intro hEq
        apply hhead
        rw [← hEq]
        exact List.mem_map_of_mem _ hd
      rcases hw : (windowFor cfg base e).toOption with _ | w
      · simp only [List.filterMap_cons, hw, Option.map_none']
        exact ih htail d hd
      · simp only [List.filterMap_cons, hw, Option.map_some']
        have hb : (d.typeStr == e.typeStr) = false := by simp [hne]
        simp only [List.lookup, hb]
        exact ih htail d hd

/-- C10: the ingest-delay window shift is local to each descriptor's
goroutine (start and end times are passed by value): the fetch issued
for a descriptor queries exactly that descriptor's own window
computation, whatever the sibling descriptors of the scrape are, and a
descriptor with no declared delay (or with the flag disabled) queries
the unshifted window end = now − offset, start = end − interval. -/
theorem c10_window_locality (cfg : CollectorConfig) (now offNs itvNs : ℤ)
    (ds : List MetricDescriptor) (d : MetricDescriptor)
    (hd : d ∈ uniqueDescriptors ds) :
    (issuedFetches cfg (baseWindow now offNs itvNs) ds).lookup d.typeStr =
      (windowFor cfg (baseWindow now offNs itvNs) d).toOption ∧
    ((cfg.metricsIngestDelay = false ∨ d.metadata = none ∨
        d.metadata = some ⟨.emptyStr⟩) →
      windowFor cfg (baseWindow now offNs itvNs) d =
        .ok (now - offNs - itvNs, now - offNs)) := by
  constructor
  · have hnd : ((uniqueDescriptors ds).map MetricDescriptor.typeStr).Nodup := by
      simpa [uniqueDescriptors] using foldl_dmapInsert_types_nodup ds [] (by simp)
    exact issuedFetches_lookup cfg (baseWindow now offNs itvNs)
      (uniqueDescriptors ds) hnd d hd
  · intro hcase
    rcases hcase with h | h | h
    · simp [windowFor, h, baseWindow]
    · by_cases hf : cfg.metricsIngestDelay <;> simp [windowFor, h, hf, baseWindow]
    · by_cases hf : cfg.metricsIngestDelay <;> simp [windowFor, h, hf, baseWindow]

/-- C10 witness: a scrape whose descriptor list contains one delayed
descriptor (50ns ingest delay) and one without metadata: the plain
descriptor's issued fetch still queries the unshifted window, while the
delayed sibling's own fetch is shifted. -/
theorem c10_window_locality_witness :
    (issuedFetches c10CfgDelay (baseWindow 1000 10 100)
      [c10DescDelay, c10DescPlain]).lookup c10DescPlain.typeStr = some (890, 990) ∧
    windowFor c10CfgDelay (baseWindow 1000 10 100) c10DescPlain = .ok (890, 990) ∧
    windowFor c10CfgDelay (baseWindow 1000 10 100) c10DescDelay = .ok (840, 940) := by
  have h := c10_window_locality c10CfgDelay 1000 10 100 [c10DescDelay, c10DescPlain]
    c10DescPlain (by decide)
  refine ⟨?_, h.2 (Or.inr (Or.inl rfl)), rfl⟩
  have h1 := h.1
  rw [h1]
  rfl

/-- C9: for the official-only descriptor cache, a prefix whose type
string's first path segment is outside the vendor namespace (it does not
contain `googleapis.com`) always misses on Lookup, and its Store leaves
the underlying cache state completely unchanged. -/
theorem c9_google_only_cache (k : String) (h : isGoogleMetric k = false) :
    (∀ now st, googleLookup now st k = none) ∧
    (∀ now ttl st data, googleStore now ttl st k data = st) := by
  refine ⟨fun now st => ?_, fun now ttl st data => ?_⟩ <;>
    simp [googleLookup, googleStore, h]

/-- C9 witness: a non-vendor prefix misses on Lookup and its Store
leaves a concrete cache state untouched. -/
theorem c9_google_only_cache_witness :
    isGoogleMetric "custom.metrics.example.com/svc/m" = false ∧
    googleLookup 5 [] "custom.metrics.example.com/svc/m" = none ∧
    googleStore 1 2 [⟨"router.googleapis.com", [], 9⟩] "custom.metrics.example.com/svc/m" []
      = [⟨"router.googleapis.com", [], 9⟩] :=
  ⟨by decide, (c9_google_only_cache _ (by decide)).1 5 [],
    (c9_google_only_cache _ (by decide)).2 1 2 [⟨"router.googleapis.com", [], 9⟩] []⟩

end StackdriverCollector
